import Mathlib

/-!
# AudioBank: streaming Ogg/Vorbis banks read from a byte range of an archive

Shallow embedding of `Engine/Audio/Source/System/AudioBank.cpp`.

* Machine integers are `Nat`/`Int` with explicit reduction modulo `2 ^ 64`
  (`uint64`, `size_t`); a `uint64` passed to a signed parameter (`long`, `int`,
  `ogg_int64_t`) is converted with `toSigned`.
* The archive reader behind a descriptor is a test double holding its absolute
  cursor and the list of calls it received.
* The Vorbis codec is an external library: the callbacks it performs while it
  opens a stream are given as an interaction tree over the values the read,
  seek and tell callbacks return; its decoding calls are functions on a state
  that belongs to the library.
* Loops that need not terminate for every codec take a number of passes as
  fuel and return `none` when it does not suffice.
* A bank is serialized to and from a stream of bytes with a cursor.
-/

namespace AudioBank

/-! ## Machine integers -/

/-- Number of values of a 64-bit word (`uint64`, `size_t`). -/
def U64_SIZE : Nat := 2 ^ 64

/-- Value of an integer expression once stored in a `uint64` variable. -/
def toU64 (x : Int) : Nat := (x % (2 ^ 64 : Int)).toNat

/-- Value of an integer expression once converted to a signed word of
`bits` bits (two's complement), as in the conversion to `long`. -/
def toSigned (bits : Nat) (x : Int) : Int :=
  let m := x % (2 ^ bits : Int)
  if m < (2 ^ (bits - 1) : Int) then m else m - (2 ^ bits : Int)

/-- Number of bits of `int`, the type of the parameter `length` of `ov_read`. -/
def INT_BITS : Nat := 32

/-- Number of bits of `ogg_int64_t`, the type of the parameter `pos` of `ov_pcm_seek`. -/
def OGG_INT64_BITS : Nat := 64

/-- The value of `SEEK_SET` in `<stdio.h>`. -/
def SEEK_SET : Int := 0

/-- The value of `SEEK_CUR` in `<stdio.h>`. -/
def SEEK_CUR : Int := 1

/-- The value of `SEEK_END` in `<stdio.h>`. -/
def SEEK_END : Int := 2

/-! ## The archive reader -/

/-- One call received by an archive reader. -/
inductive ArchiveCall where
  | Tell : ArchiveCall
  | Seek (InPosition : Nat) : ArchiveCall
  | Serialize (InSize : Nat) : ArchiveCall
  deriving DecidableEq, Repr

/-- Modelled from the spec: the archive reader `FArchive` (its class is declared
outside the given sources), "random-access byte reads and seeks over a named
path" with `read(buffer, size)`, `seek(absolutePosition)` and
`tell() → absolutePosition`. The double keeps the absolute cursor and records
every call. -/
structure FArchive where
  pos : Nat
  calls : List ArchiveCall := []
  deriving DecidableEq, Repr

namespace FArchive

/-- The call `archive->Tell()`: the absolute cursor. -/
def Tell (a : FArchive) : Nat × FArchive :=
  (a.pos, { a with calls := a.calls ++ [ArchiveCall.Tell] })

/-- The call `archive->Seek( InPosition )`: the cursor moves to `InPosition`. -/
def Seek (a : FArchive) (InPosition : Nat) : FArchive :=
  { pos := InPosition, calls := a.calls ++ [ArchiveCall.Seek InPosition] }

/-- The call `archive->Serialize( InDst, InSize )` on a loading archive: `InSize`
bytes are requested and the cursor moves past them. -/
def Serialize (a : FArchive) (InSize : Nat) : FArchive :=
  { pos := a.pos + InSize, calls := a.calls ++ [ArchiveCall.Serialize InSize] }

end FArchive

/-- The struct `FArchiveOGGRawData`: an archive and the range of the raw data in it. -/
structure FArchiveOGGRawData where
  archive : FArchive
  beginOffset : Nat
  endOffset : Nat
  deriving DecidableEq, Repr

/-! ## The four callbacks -/

/-- The callback `Archive_ReadOgg`: the returned `size` and the descriptor after the call. -/
def Archive_ReadOgg (InSize1 InSize2 : Nat) (rawDataInfo : FArchiveOGGRawData) :
    Nat × FArchiveOGGRawData :=
  let size := (InSize1 * InSize2) % U64_SIZE
  let t := rawDataInfo.archive.Tell
  let currentOffset := t.1
  -- Trim the number of bytes to read if we've reached the end of the file
  let size :=
    if (currentOffset + size) % U64_SIZE > rawDataInfo.endOffset then
      toU64 ((rawDataInfo.endOffset : Int) - (currentOffset : Int))
    else size
  let archive := if size > 0 then t.2.Serialize size else t.2
  (size, { rawDataInfo with archive := archive })

/-- The right-hand sides of the `switch ( InType )` of `Archive_SeekOgg` taken as
integers, before the value is stored in the `uint64` variable `currentOffset`;
`none` in the `default` case. -/
def seekTargetInt (rawDataInfo : FArchiveOGGRawData) (currentOffset : Nat) (InTo InType : Int) :
    Option Int :=
  if InType = SEEK_CUR then some ((currentOffset : Int) + InTo)
  else if InType = SEEK_END then some ((rawDataInfo.endOffset : Int) - InTo)
  else if InType = SEEK_SET then some ((rawDataInfo.beginOffset : Int) + InTo)
  else none

/-- The `switch ( InType )` of `Archive_SeekOgg`: the new value of the `uint64`
variable `currentOffset`, or `none` in the `default` case. -/
def seekCandidate (rawDataInfo : FArchiveOGGRawData) (currentOffset : Nat) (InTo InType : Int) :
    Option Nat :=
  (seekTargetInt rawDataInfo currentOffset InTo InType).map toU64

/-- The two clamping tests of `Archive_SeekOgg`: the position to seek to and `result`. -/
def seekClamp (rawDataInfo : FArchiveOGGRawData) (currentOffset : Nat) : Nat × Int :=
  let r1 : Nat × Int :=
    if currentOffset < rawDataInfo.beginOffset then (rawDataInfo.beginOffset, -1)
    else (currentOffset, 0)
  if r1.1 > rawDataInfo.endOffset then (rawDataInfo.endOffset, -1) else r1

/-- The callback `Archive_SeekOgg`: the returned `int` and the descriptor after the call. -/
def Archive_SeekOgg (rawDataInfo : FArchiveOGGRawData) (InTo InType : Int) :
    Int × FArchiveOGGRawData :=
  let t := rawDataInfo.archive.Tell
  match seekCandidate rawDataInfo t.1 InTo InType with
  | none => (-1, { rawDataInfo with archive := t.2 })
  | some currentOffset =>
    let r := seekClamp rawDataInfo currentOffset
    (r.2, { rawDataInfo with archive := t.2.Seek r.1 })

/-- The callback `Archive_TellOgg`; `LONG_BITS` is the width of the type `long` of the
return value (32 with MSVC, 64 on LP64 platforms). -/
def Archive_TellOgg (LONG_BITS : Nat) (rawDataInfo : FArchiveOGGRawData) :
    Int × FArchiveOGGRawData :=
  let t := rawDataInfo.archive.Tell
  let currentOffset := t.1
  (toSigned LONG_BITS (toU64 ((currentOffset : Int) - (rawDataInfo.beginOffset : Int))),
    { rawDataInfo with archive := t.2 })

/-! ## The codec (libvorbisfile, an external library) -/

/-- The value of `OV_FALSE` in `vorbis/codec.h`. -/
def OV_FALSE : Int := -1

/-- The value of `OV_EREAD` in `vorbis/codec.h`. -/
def OV_EREAD : Int := -128

/-- The value of `OV_EFAULT` in `vorbis/codec.h`. -/
def OV_EFAULT : Int := -129

/-- The value of `OV_ENOTVORBIS` in `vorbis/codec.h`. -/
def OV_ENOTVORBIS : Int := -132

/-- The value of `OV_EBADHEADER` in `vorbis/codec.h`. -/
def OV_EBADHEADER : Int := -133

/-- The value of `OV_EVERSION` in `vorbis/codec.h`. -/
def OV_EVERSION : Int := -134

/-- What one run of `ov_open_callbacks` does with its data source: it returns a result
code, or calls `read_func`, `seek_func` or `tell_func` and goes on from the value the
callback returned. (libvorbisfile calls `close_func` from `ov_clear` only.) -/
inductive OvOpen where
  | done (result : Int) : OvOpen
  | read (InSize1 InSize2 : Nat) (next : Nat → OvOpen) : OvOpen
  | seek (InTo InType : Int) (next : Int → OvOpen) : OvOpen
  | tell (next : Int → OvOpen) : OvOpen

/-- The fields of `vorbis_info` that `OpenBank` reads. -/
structure vorbis_info where
  channels : Int
  rate : Int
  deriving DecidableEq, Repr

/-- The answers of the codec for one stream: the run of `ov_open_callbacks`, the result
of `ov_info( _, -1 )` (`none` for a null pointer) and the result of `ov_pcm_total( _, -1 )`. -/
structure OggVorbisCodec where
  ov_open_callbacks : OvOpen
  ov_info : Option vorbis_info
  ov_pcm_total : Int

/-- The run of `ov_open_callbacks` on a descriptor bound to the callbacks `Archive_ReadOgg`,
`Archive_SeekOgg` and `Archive_TellOgg`: the result code and the descriptor afterwards. -/
def runOvOpen (LONG_BITS : Nat) : OvOpen → FArchiveOGGRawData → Int × FArchiveOGGRawData
  | OvOpen.done result, d => (result, d)
  | OvOpen.read InSize1 InSize2 next, d =>
    runOvOpen LONG_BITS (next (Archive_ReadOgg InSize1 InSize2 d).1)
      (Archive_ReadOgg InSize1 InSize2 d).2
  | OvOpen.seek InTo InType next, d =>
    runOvOpen LONG_BITS (next (Archive_SeekOgg d InTo InType).1) (Archive_SeekOgg d InTo InType).2
  | OvOpen.tell next, d =>
    runOvOpen LONG_BITS (next (Archive_TellOgg LONG_BITS d).1) (Archive_TellOgg LONG_BITS d).2

/-! ## The bank -/

/-- The sample formats `OpenBank` chooses from. -/
inductive ESampleFormat where
  | SF_Mono16 : ESampleFormat
  | SF_Stereo16 : ESampleFormat
  deriving DecidableEq, Repr

/-- Modelled from the spec: the struct `FAudioBankInfo` (declared outside the given
sources), the BankMetadata "channel count, sample format tag derived from channel count,
sample rate, total decodable sample count expressed in bytes". -/
structure FAudioBankInfo where
  format : ESampleFormat
  numChannels : Int
  rate : Int
  numSamples : Int
  deriving DecidableEq, Repr

/-- The struct `FAudioBankOGG`: the codec's file parser (here the data source it holds),
the Vorbis info, the info about the bank and the sample offset. -/
structure FAudioBankOGG where
  oggVorbisFile : FArchiveOGGRawData
  vorbisInfo : Option vorbis_info
  info : FAudioBankInfo
  sampleOffset : Nat
  deriving DecidableEq, Repr

/-- The value of `offsetToRawData` after construction, `-1` in a `uint64`. -/
def OFFSET_UNSET : Nat := 2 ^ 64 - 1

/-- Modelled from the spec: the members of `FAudioBank` (declared outside the given
sources) that `OpenBank` and `Serialize` use, the BankRecord's "`archivePath` (string),
`byteOffset` (u64, ... sentinel "unset" value before first load), `byteLength` (u64; zero
means "no audio data"), optional `rawBytes` (owned buffer, present only in
authoring/editor contexts)". -/
structure FAudioBank where
  pathToArchive : String
  offsetToRawData : Nat
  rawDataSize : Nat
  /-- The bytes of the member `rawData`, which exists in builds `WITH_EDITOR` only. -/
  rawData : List Nat := []
  deriving DecidableEq, Repr

namespace FAudioBank

/-- The constructor `FAudioBank::FAudioBank`: `offsetToRawData( -1 )`, `rawDataSize( 0 )`. -/
def new : FAudioBank :=
  { pathToArchive := "", offsetToRawData := OFFSET_UNSET, rawDataSize := 0 }

/-- Modelled from the spec: `FAudioBank::IsEmpty` (declared outside the given sources),
"`byteLength` (u64; zero means "no audio data")". -/
def IsEmpty (self : FAudioBank) : Bool := self.rawDataSize == 0

end FAudioBank

/-- What `OpenBank` does outside of its return value: the objects it creates and releases,
the calls it makes to the file system, the archive reader and the codec, and the warnings
it logs. -/
structure World where
  createFileReaderCalls : Nat := 0
  readersCreated : Nat := 0
  readersReleased : Nat := 0
  rawDataDescsCreated : Nat := 0
  rawDataDescsReleased : Nat := 0
  audioBankOggsCreated : Nat := 0
  audioBankOggsReleased : Nat := 0
  ovOpenCalls : Nat := 0
  archiveCalls : List ArchiveCall := []
  warnings : List String := []
  deriving DecidableEq, Repr

/-- The callback `Archive_CloseOgg`: `delete rawDataInfo->archive`, `delete rawDataInfo`,
`return 0`. -/
def Archive_CloseOgg (w : World) : Int × World :=
  (0,
    { w with
      readersReleased := w.readersReleased + 1,
      rawDataDescsReleased := w.rawDataDescsReleased + 1 })

/-- The message chosen by the `switch ( error )` of `OpenBank`. -/
def strError (error : Int) : String :=
  if error = OV_FALSE then "not found"
  else if error = OV_EREAD then "a read from media returned an error"
  else if error = OV_ENOTVORBIS then "bitstream does not contain any Vorbis data"
  else if error = OV_EVERSION then "vorbis version mismatch"
  else if error = OV_EBADHEADER then "invalid Vorbis bitstream header"
  else if error = OV_EFAULT then
    "internal logic fault; indicates a bug or heap/stack corruption"
  else "unknow error"

/-- The descriptor `OpenBank` hands to the codec: the range of the bank's raw data and the
reader, sought to `offsetToRawData` (`oggRawDataDesc->archive->Seek( offsetToRawData )`). -/
def bindReader (self : FAudioBank) (archive : FArchive) : FArchiveOGGRawData :=
  { archive := archive.Seek self.offsetToRawData,
    beginOffset := self.offsetToRawData,
    endOffset := (self.offsetToRawData + self.rawDataSize) % U64_SIZE }

/-- What a call of `OpenBank` leaves: the returned handle (`none` for `nullptr`), the
caller's `OutBankInfo` and the world. -/
structure OpenBankResult where
  handle : Option FAudioBankOGG
  OutBankInfo : FAudioBankInfo
  world : World
  deriving DecidableEq, Repr

/-- The branch `if ( error < 0 )` of `OpenBank`: `delete oggRawDataDesc`, `delete audioBankOgg`
when it was created, the warning, `return nullptr`. -/
def openBankFailed (error : Int) (audioBankOggCreated : Bool) (OutBankInfo : FAudioBankInfo)
    (w : World) : OpenBankResult :=
  { handle := none,
    OutBankInfo := OutBankInfo,
    world :=
      { w with
        rawDataDescsReleased := w.rawDataDescsReleased + 1,
        audioBankOggsReleased := w.audioBankOggsReleased + (if audioBankOggCreated then 1 else 0),
        warnings := w.warnings ++ ["Failed loading bank: " ++ strError error] } }

/-- The method `FAudioBank::OpenBank`. `DO_CHECK` tells whether the `check` assertions are
compiled in; a failed assertion (or the use of a null `vorbisInfo`) ends the call with
`Except.error`. `GFileSystem` answers `CreateFileReader` with a reader or `none`. -/
def OpenBank (DO_CHECK : Bool) (LONG_BITS : Nat) (GFileSystem : String → Option FArchive)
    (codec : OggVorbisCodec) (self : FAudioBank) (OutBankInfo : FAudioBankInfo) (w : World) :
    Except String OpenBankResult :=
  -- If bank is empty - we exit from method
  if self.IsEmpty then
    Except.ok { handle := none, OutBankInfo := OutBankInfo, world := w }
  else if DO_CHECK && self.offsetToRawData == OFFSET_UNSET then
    Except.error "offsetToRawData != -1"
  else
    let w1 : World :=
      { w with
        rawDataDescsCreated := w.rawDataDescsCreated + 1,
        createFileReaderCalls := w.createFileReaderCalls + 1 }
    match GFileSystem self.pathToArchive with
    | none =>
      -- If failed open archive - we set 'error' to OV_FALSE
      Except.ok (openBankFailed OV_FALSE false OutBankInfo w1)
    | some archive =>
      let opened := runOvOpen LONG_BITS codec.ov_open_callbacks (bindReader self archive)
      let error := opened.1
      let w2 : World :=
        { w1 with
          readersCreated := w1.readersCreated + 1,
          audioBankOggsCreated := w1.audioBankOggsCreated + 1,
          ovOpenCalls := w1.ovOpenCalls + 1,
          archiveCalls := w1.archiveCalls ++ opened.2.archive.calls }
      if error < 0 then
        Except.ok (openBankFailed error true OutBankInfo w2)
      else
        -- Getting info about bank
        match codec.ov_info with
        | none => Except.error "audioBankOgg->vorbisInfo"
        | some vorbisInfo =>
          let info : FAudioBankInfo :=
            { numChannels := vorbisInfo.channels,
              format :=
                if vorbisInfo.channels = 1 then ESampleFormat.SF_Mono16
                else ESampleFormat.SF_Stereo16,
              rate := vorbisInfo.rate,
              numSamples := codec.ov_pcm_total * vorbisInfo.channels * 2 }
          Except.ok
            { handle := some
                { oggVorbisFile := opened.2, vorbisInfo := some vorbisInfo, info := info,
                  sampleOffset := 0 },
              OutBankInfo := info,
              world := w2 }

/-! ## Decoding -/

/-- The value of `OV_HOLE` in `vorbis/codec.h`. -/
def OV_HOLE : Int := -3

/-- The decoding calls of libvorbisfile on an open stream. The state `σ` of the decoder
belongs to the library; `ov_read` gets the state and its parameter `int length` and
answers the `long` it returns, `ov_pcm_seek` gets the state and its parameter
`ogg_int64_t pos`, the frame index. -/
structure OvDecoder (σ : Type) where
  ov_read : σ → Int → Int × σ
  ov_pcm_seek : σ → Int → Int × σ

/-- The variables of `ReadBankPCM`: the local `size`, the pointer `InSamples` (as an
offset into the caller's buffer), the session and the state of its decoder; with them the
values `ov_read` returned so far and the number of times `appErrorf` was reached. -/
structure ReadBankPCMState (σ : Type) where
  size : Nat
  InSamples : Int
  audioBankOgg : FAudioBankOGG
  decoder : σ
  ovReadResults : List Int
  appErrorfCalls : Nat

/-- One pass through the body of the `while` loop of `ReadBankPCM`: whether the loop goes
on (`false` after `break`) and the variables after the pass. The `uint64 bytesToRead` is
passed to the parameter `int length` of `ov_read`, so the codec gets its low 32 bits as a
signed value. -/
def ReadBankPCM_body {σ : Type} (dec : OvDecoder σ) (InMaxSize : Nat) (st : ReadBankPCMState σ) :
    Bool × ReadBankPCMState σ :=
  let bytesToRead := ((InMaxSize - st.size) * 1) % U64_SIZE
  let r := dec.ov_read st.decoder (toSigned INT_BITS (bytesToRead : Int))
  let bytesRead := r.1
  if bytesRead > 0 then
    let samplesRead := bytesRead / 1
    (true,
      { size := toU64 ((st.size : Int) + samplesRead),
        InSamples := st.InSamples + samplesRead,
        audioBankOgg :=
          { st.audioBankOgg with
            sampleOffset := toU64 ((st.audioBankOgg.sampleOffset : Int) + samplesRead) },
        decoder := r.2,
        ovReadResults := st.ovReadResults ++ [bytesRead],
        appErrorfCalls := st.appErrorfCalls })
  else
    -- Error or end of file
    (false,
      { size := 0,
        InSamples := st.InSamples,
        audioBankOgg := st.audioBankOgg,
        decoder := r.2,
        ovReadResults := st.ovReadResults ++ [bytesRead],
        -- If less 0 - this is error
        appErrorfCalls := st.appErrorfCalls + (if (bytesToRead : Int) < 0 then 1 else 0) })

/-- The `while ( size < InMaxSize )` loop of `ReadBankPCM`, run for at most `fuel` passes;
`none` when the passes do not suffice. -/
def ReadBankPCM_loop {σ : Type} (dec : OvDecoder σ) (InMaxSize : Nat) :
    Nat → ReadBankPCMState σ → Option (ReadBankPCMState σ)
  | 0, st => if st.size < InMaxSize then none else some st
  | fuel + 1, st =>
    if st.size < InMaxSize then
      if (ReadBankPCM_body dec InMaxSize st).1 then
        ReadBankPCM_loop dec InMaxSize fuel (ReadBankPCM_body dec InMaxSize st).2
      else some (ReadBankPCM_body dec InMaxSize st).2
    else some st

/-- The method `FAudioBank::ReadBankPCM` on an open session: the returned value is the
field `size` of the result. -/
def ReadBankPCM {σ : Type} (dec : OvDecoder σ) (fuel : Nat) (audioBankOgg : FAudioBankOGG)
    (decoder : σ) (InSamples : Int) (InMaxSize : Nat) : Option (ReadBankPCMState σ) :=
  ReadBankPCM_loop dec InMaxSize fuel
    { size := 0,
      InSamples := InSamples,
      audioBankOgg := audioBankOgg,
      decoder := decoder,
      ovReadResults := [],
      appErrorfCalls := 0 }

/-- What a call of `SeekBankPCM` leaves: the session, the state of its decoder and the
frame indices passed to `ov_pcm_seek`. -/
structure SeekBankPCMResult (σ : Type) where
  audioBankOgg : FAudioBankOGG
  decoder : σ
  ovPcmSeekCalls : List Int

/-- The method `FAudioBank::SeekBankPCM` on an open session; `none` when the division
`InSampleOffset / audioBankOgg->info.numChannels` is a division by zero. The quotient is
passed to the parameter `ogg_int64_t pos` of `ov_pcm_seek`, so the codec gets it as a
signed value of 64 bits. The value that `ov_pcm_seek` returns is not read. -/
def SeekBankPCM {σ : Type} (dec : OvDecoder σ) (audioBankOgg : FAudioBankOGG) (decoder : σ)
    (InSampleOffset : Nat) : Option (SeekBankPCMResult σ) :=
  if audioBankOgg.info.numChannels = 0 then none
  else
    let pos := toSigned OGG_INT64_BITS ((InSampleOffset : Int) / audioBankOgg.info.numChannels)
    some
      { audioBankOgg := { audioBankOgg with sampleOffset := InSampleOffset },
        decoder := (dec.ov_pcm_seek decoder pos).2,
        ovPcmSeekCalls := [pos] }

/-- The method `FAudioBank::GetOffsetBankPCM` on an open session. -/
def GetOffsetBankPCM (audioBankOgg : FAudioBankOGG) : Nat :=
  audioBankOgg.sampleOffset

/-- The method `FAudioBank::CloseBank`: nothing for a null handle; otherwise
`vorbis_info_clear`, `ov_clear`, which closes the data source through `Archive_CloseOgg`,
and `delete audioBankOgg`. -/
def CloseBank (InBankHandle : Option FAudioBankOGG) (w : World) : World :=
  match InBankHandle with
  | none => w
  | some _ =>
    { (Archive_CloseOgg w).2 with
      audioBankOggsReleased := (Archive_CloseOgg w).2.audioBankOggsReleased + 1 }

/-- A bank record in use: the record, the handle its user holds (`none` for `nullptr`),
the state of the decoder behind the handle, the user's `FAudioBankInfo` and the world. -/
structure BankSystem (σ : Type) where
  self : FAudioBank
  handle : Option FAudioBankOGG
  decoder : σ
  OutBankInfo : FAudioBankInfo
  world : World

/-- One call of a method of the bank by its user. -/
inductive BankCall where
  | OpenBank : BankCall
  | CloseBank : BankCall
  | ReadBankPCM (InMaxSize : Nat) : BankCall
  | SeekBankPCM (InSampleOffset : Nat) : BankCall
  | GetOffsetBankPCM : BankCall
  deriving DecidableEq, Repr

/-- The effect of one call on a bank in use; `none` when the call does not return (a failed
`check`, a division by zero, a read loop that outlasts `fuel`). A stream that is opened
starts with the decoder state `decoder0`. -/
def applyCall {σ : Type} (DO_CHECK : Bool) (LONG_BITS : Nat)
    (GFileSystem : String → Option FArchive) (codec : OggVorbisCodec) (dec : OvDecoder σ)
    (decoder0 : σ) (fuel : Nat) : BankCall → BankSystem σ → Option (BankSystem σ)
  | BankCall.OpenBank, sys =>
    match OpenBank DO_CHECK LONG_BITS GFileSystem codec sys.self sys.OutBankInfo sys.world with
    | Except.error _ => none
    | Except.ok r =>
      some { sys with
        handle := r.handle, decoder := decoder0, OutBankInfo := r.OutBankInfo, world := r.world }
  | BankCall.CloseBank, sys =>
    some { sys with handle := none, world := CloseBank sys.handle sys.world }
  | BankCall.ReadBankPCM InMaxSize, sys =>
    match sys.handle with
    | none => none
    | some audioBankOgg =>
      match ReadBankPCM dec fuel audioBankOgg sys.decoder 0 InMaxSize with
      | none => none
      | some r => some { sys with handle := some r.audioBankOgg, decoder := r.decoder }
  | BankCall.SeekBankPCM InSampleOffset, sys =>
    match sys.handle with
    | none => none
    | some audioBankOgg =>
      match SeekBankPCM dec audioBankOgg sys.decoder InSampleOffset with
      | none => none
      | some r => some { sys with handle := some r.audioBankOgg, decoder := r.decoder }
  | BankCall.GetOffsetBankPCM, sys =>
    match sys.handle with
    | none => none
    | some _ => some sys

/-- A sequence of calls on a bank in use, one after the other. -/
def applyCalls {σ : Type} (DO_CHECK : Bool) (LONG_BITS : Nat)
    (GFileSystem : String → Option FArchive) (codec : OggVorbisCodec) (dec : OvDecoder σ)
    (decoder0 : σ) (fuel : Nat) : List BankCall → BankSystem σ → Option (BankSystem σ)
  | [], sys => some sys
  | call :: calls, sys =>
    match applyCall DO_CHECK LONG_BITS GFileSystem codec dec decoder0 fuel call sys with
    | none => none
    | some sys1 => applyCalls DO_CHECK LONG_BITS GFileSystem codec dec decoder0 fuel calls sys1

/-! ## Serialization -/

/-- The 8 bytes of a `uint64` in memory, least significant first. -/
def toLE64 (n : Nat) : List Nat :=
  (List.range 8).map (fun i => n / 256 ^ i % 256)

/-- The number whose bytes, least significant first, are `bytes`. -/
def fromLE (bytes : List Nat) : Nat :=
  bytes.foldr (fun b acc => b + 256 * acc) 0

/-- Modelled from the spec: the archive `FArchive` as `FAudioBank::Serialize` uses it (its
class is declared outside the given sources), a "container stream" that is loading or
saving, with `read(buffer, size)`, `seek(absolutePosition)`, `tell() → absolutePosition`
and the path it was opened from. The double holds the bytes of the stream and the cursor,
and records every call. -/
structure FArchiveStream where
  path : String
  isLoading : Bool
  bytes : List Nat
  pos : Nat
  calls : List ArchiveCall := []
  deriving DecidableEq, Repr

namespace FArchiveStream

/-- The call `InArchive.Tell()`. -/
def Tell (a : FArchiveStream) : Nat × FArchiveStream :=
  (a.pos, { a with calls := a.calls ++ [ArchiveCall.Tell] })

/-- The call `InArchive.Seek( InPosition )`. -/
def Seek (a : FArchiveStream) (InPosition : Nat) : FArchiveStream :=
  { a with pos := InPosition, calls := a.calls ++ [ArchiveCall.Seek InPosition] }

/-- The call `InArchive.Serialize( InBuffer, InSize )`, where `buffer` holds the bytes at
`InBuffer`: a loading archive copies the next `InSize` bytes of the stream (fewer at its
end) over the start of the buffer, a saving archive writes the first `InSize` bytes of the
buffer at the cursor; the cursor moves past the bytes. With the archive comes the buffer
after the call. -/
def Serialize (a : FArchiveStream) (buffer : List Nat) (InSize : Nat) :
    List Nat × FArchiveStream :=
  if a.isLoading then
    ((a.bytes.drop a.pos).take InSize ++ buffer.drop ((a.bytes.drop a.pos).take InSize).length,
      { a with
        pos := a.pos + ((a.bytes.drop a.pos).take InSize).length,
        calls := a.calls ++ [ArchiveCall.Serialize InSize] })
  else
    (buffer,
      { a with
        bytes := a.bytes.take a.pos ++ buffer.take InSize
          ++ a.bytes.drop (a.pos + (buffer.take InSize).length),
        pos := a.pos + (buffer.take InSize).length,
        calls := a.calls ++ [ArchiveCall.Serialize InSize] })

end FArchiveStream

/-- Modelled from the spec: `FAsset::Serialize` (declared outside the given sources), "the
asset/object system's generic load/save framing": the framing of the asset, the bytes
`assetHeader`, is written by a saving archive and read by a loading one. -/
def FAsset_Serialize (assetHeader : List Nat) (InArchive : FArchiveStream) : FArchiveStream :=
  (InArchive.Serialize assetHeader assetHeader.length).2

/-- Modelled from the spec: `operator<<` of the archive for a `uint64` (declared outside
the given sources), which gives the persisted layout "`[u64 byteLength][payload bytes ...]`":
the 8 bytes of the value are serialized, least significant first. With the archive come
the 8 bytes of the variable after the call. -/
def FArchiveStream.shiftU64 (a : FArchiveStream) (value : Nat) : List Nat × FArchiveStream :=
  a.Serialize (toLE64 value) 8

/-- The first two statements of `FAudioBank::Serialize`, `FAsset::Serialize( InArchive )`
and `InArchive << rawDataSize`: the 8 bytes of `rawDataSize` and the archive after the two
statements. -/
def serializeRawDataSize (assetHeader : List Nat) (self : FAudioBank)
    (InArchive : FArchiveStream) : List Nat × FArchiveStream :=
  (FAsset_Serialize assetHeader InArchive).shiftU64 self.rawDataSize

/-- The method `FAudioBank::Serialize`: the record and the archive after the call; `none`
when a saving archive is given more bytes than `rawData` holds. `WITH_EDITOR` tells
whether the branch that writes `rawData` is compiled in. -/
def FAudioBank.Serialize (WITH_EDITOR : Bool) (assetHeader : List Nat) (self : FAudioBank)
    (InArchive : FArchiveStream) : Option (FAudioBank × FArchiveStream) :=
  let s := serializeRawDataSize assetHeader self InArchive
  let rawDataSize := fromLE s.1
  let a2 := s.2
  if a2.isLoading && decide (rawDataSize > 0) then
    let t := a2.Tell
    let offsetToRawData := t.1
    some
      ({ self with
          rawDataSize := rawDataSize,
          offsetToRawData := offsetToRawData,
          pathToArchive := t.2.path },
        t.2.Seek ((offsetToRawData + rawDataSize) % U64_SIZE))
  else if WITH_EDITOR && decide (rawDataSize > 0) then
    if rawDataSize ≤ self.rawData.length then
      some ({ self with rawDataSize := rawDataSize }, (a2.Serialize self.rawData rawDataSize).2)
    else none
  else some ({ self with rawDataSize := rawDataSize }, a2)

/-- The sum of the positive values among the results of the `ov_read` calls. -/
def positiveSum (results : List Int) : Int :=
  (results.filter (fun y => decide (0 < y))).sum

/-! ## The source file of the editor -/

/-- Modelled from the spec: `GFileSystem->CreateFileReader` with the reader it returns for
a source file (both declared outside the given sources), "`openReaderForPath(path) →
reader | failure`": a file system gives the bytes of the files that can be opened, and the
reader is a loading archive on these bytes with its cursor at the start. -/
def CreateFileReader (files : String → Option (List Nat)) (InPath : String) :
    Option FArchiveStream :=
  (files InPath).map (fun bytes => { path := InPath, isLoading := true, bytes := bytes, pos := 0 })

/-- Modelled from the spec: `FArchive::GetSize` (declared outside the given sources),
"`size() → totalBytes`". -/
def FArchiveStream.GetSize (a : FArchiveStream) : Nat := a.bytes.length

/-- The call `rawData.resize( InSize )` of `std::vector`: the first `InSize` bytes are
kept and zeros are appended up to the size `InSize`. -/
def resize (rawData : List Nat) (InSize : Nat) : List Nat :=
  rawData.take InSize ++ List.replicate (InSize - rawData.length) 0

/-- The method `FAudioBank::SetSourceOGGFile` (builds `WITH_EDITOR`): the record after the
call and the world, with the warnings logged and the reader created and deleted. -/
def FAudioBank.SetSourceOGGFile (files : String → Option (List Nat)) (self : FAudioBank)
    (InPath : String) (w : World) : FAudioBank × World :=
  -- Read raw data of Ogg/Vorbis file
  match CreateFileReader files InPath with
  | none =>
    (self,
      { w with
        createFileReaderCalls := w.createFileReaderCalls + 1,
        warnings := w.warnings ++ ["Failed open archive \x27" ++ InPath ++ "\x27"] })
  | some archive =>
    -- Serialize audio bank to memory
    let rawDataSize := archive.GetSize
    let rawData := resize self.rawData rawDataSize
    let w1 : World :=
      { w with
        createFileReaderCalls := w.createFileReaderCalls + 1,
        readersCreated := w.readersCreated + 1,
        readersReleased := w.readersReleased + 1 }
    if rawDataSize > 0 then
      ({ pathToArchive := InPath, offsetToRawData := 0, rawDataSize := rawDataSize,
          rawData := (archive.Serialize rawData rawDataSize).1 },
        w1)
    else
      ({ pathToArchive := InPath, offsetToRawData := 0, rawDataSize := rawDataSize,
          rawData := rawData },
        { w1 with warnings := w1.warnings ++ ["Archive \x27" ++ InPath ++ "\x27 is empty"] })

/-- The bank records that are reached from the constructor by calls of `Serialize` and of
`SetSourceOGGFile`. The archive of a loading `Serialize` has its cursor, after the asset
framing and the length field, at a position below `2 ^ 64 - 1`. -/
inductive Reachable (WITH_EDITOR : Bool) : FAudioBank → Prop where
  | new : Reachable WITH_EDITOR FAudioBank.new
  | serialize (self self1 : FAudioBank) (assetHeader : List Nat) (InArchive a1 : FArchiveStream) :
      Reachable WITH_EDITOR self →
      (InArchive.isLoading = true → InArchive.pos + assetHeader.length + 8 < OFFSET_UNSET) →
      self.Serialize WITH_EDITOR assetHeader InArchive = some (self1, a1) →
      Reachable WITH_EDITOR self1
  | setSource (self : FAudioBank) (files : String → Option (List Nat)) (InPath : String)
      (w : World) :
      Reachable WITH_EDITOR self →
      Reachable WITH_EDITOR (self.SetSourceOGGFile files InPath w).1

/-! ## Concrete inputs used below -/

/-- A descriptor of the range `[0, 10]` whose archive stands at position 1. -/
def readWrapInput : FArchiveOGGRawData :=
  { archive := { pos := 1 }, beginOffset := 0, endOffset := 10 }

/-- A descriptor of the range `[5, 10]` whose archive stands at position `p`. -/
def rangeFiveTen (p : Nat) : FArchiveOGGRawData :=
  { archive := { pos := p }, beginOffset := 5, endOffset := 10 }

/-- A bank of 4 bytes at offset 16 of the archive `sounds.pak`. -/
def corruptBank : FAudioBank :=
  { pathToArchive := "sounds.pak", offsetToRawData := 16, rawDataSize := 4 }

/-- A file system in which every archive can be opened, the reader starting at 0. -/
def anyReader : String → Option FArchive := fun _ => some { pos := 0 }

/-- A file system in which no archive can be opened. -/
def noReader : String → Option FArchive := fun _ => none

/-- A codec that reads the first four bytes and rejects them as not being Vorbis data. -/
def rejectingCodec : OggVorbisCodec :=
  { ov_open_callbacks := OvOpen.read 1 4 (fun _ => OvOpen.done OV_ENOTVORBIS),
    ov_info := none,
    ov_pcm_total := 0 }

/-- A codec that reads the first four bytes and accepts a mono stream of 1000 frames. -/
def acceptingCodec : OggVorbisCodec :=
  { ov_open_callbacks := OvOpen.read 1 4 (fun _ => OvOpen.done 0),
    ov_info := some { channels := 1, rate := 44100 },
    ov_pcm_total := 1000 }

/-- The caller's `FAudioBankInfo` before the call in the examples. -/
def blankInfo : FAudioBankInfo :=
  { format := ESampleFormat.SF_Stereo16, numChannels := 0, rate := 0, numSamples := 0 }

/-- A codec that reads the first four bytes and accepts a stream of 6 channels and
1000 frames. -/
def sixChannelCodec : OggVorbisCodec :=
  { ov_open_callbacks := OvOpen.read 1 4 (fun _ => OvOpen.done 0),
    ov_info := some { channels := 6, rate := 48000 },
    ov_pcm_total := 1000 }

/-- A session on the range `[16, 20]` with the metadata of a stereo stream of 1000 frames. -/
def stereoSession : FAudioBankOGG :=
  { oggVorbisFile := { archive := { pos := 20 }, beginOffset := 16, endOffset := 20 },
    vorbisInfo := some { channels := 2, rate := 44100 },
    info :=
      { format := ESampleFormat.SF_Stereo16, numChannels := 2, rate := 44100, numSamples := 4000 },
    sampleOffset := 0 }

/-- A decoder whose state is the number of PCM bytes left: `ov_read` yields at most
`chunk` bytes, at most the requested number (nothing for a `length` of 0 or less) and at
most what is left. -/
def chunkDecoder (chunk : Nat) : OvDecoder Nat :=
  { ov_read := fun left length =>
      ((min (min length.toNat left) chunk : Nat), left - min (min length.toNat left) chunk),
    ov_pcm_seek := fun left _ => (0, left) }

/-- A decoder that answers `OV_HOLE` to every `ov_read`. -/
def holeDecoder : OvDecoder Unit :=
  { ov_read := fun _ _ => (OV_HOLE, ()),
    ov_pcm_seek := fun _ _ => (0, ()) }

/-- A session with the metadata of a mono stream of 5 frames, 10 bytes of PCM. -/
def monoSession : FAudioBankOGG :=
  { oggVorbisFile := { archive := { pos := 20 }, beginOffset := 16, endOffset := 20 },
    vorbisInfo := some { channels := 1, rate := 44100 },
    info :=
      { format := ESampleFormat.SF_Mono16, numChannels := 1, rate := 44100, numSamples := 10 },
    sampleOffset := 0 }

/-- A decoder whose `ov_pcm_seek` reports the failure `OV_EREAD` and moves nothing. -/
def failingSeekDecoder : OvDecoder Nat :=
  { ov_read := fun left _ => (0, left),
    ov_pcm_seek := fun left _ => (OV_EREAD, left) }

/-- The bank `corruptBank` before it is opened, with no handle held. -/
def closedSystem : BankSystem Nat :=
  { self := corruptBank, handle := none, decoder := 0, OutBankInfo := blankInfo, world := {} }

/-- A loading archive `sounds.pak` of 2 framing bytes, the length field 3, 3 payload bytes
and one byte more, with the cursor at the start. -/
def loadingArchive : FArchiveStream :=
  { path := "sounds.pak", isLoading := true,
    bytes := [7, 7, 3, 0, 0, 0, 0, 0, 0, 0, 10, 20, 30, 99], pos := 0 }

/-- An empty saving archive `out.pak`. -/
def savingArchive : FArchiveStream :=
  { path := "out.pak", isLoading := false, bytes := [], pos := 0 }

/-- A record of the editor that holds 3 raw bytes read from `a.ogg`. -/
def editedBank : FAudioBank :=
  { pathToArchive := "a.ogg", offsetToRawData := 0, rawDataSize := 3, rawData := [10, 20, 30] }

/-- A codec whose `ov_open_callbacks` returns `OV_FALSE` without calling back. -/
def falseCodec : OggVorbisCodec :=
  { ov_open_callbacks := OvOpen.done OV_FALSE,
    ov_info := none,
    ov_pcm_total := 0 }

/-- The session `stereoSession` with its sample offset at `2 ^ 64 - 1`, as
`SeekBankPCM( handle, 2 ^ 64 - 1 )` leaves it. -/
def sessionAtLastOffset : FAudioBankOGG :=
  { stereoSession with sampleOffset := 18446744073709551615 }

/-- A decoder of 16-bit PCM with `c` channels and `total` frames whose state is its PCM
frame position: `ov_read` hands out the whole frames that fit the request and are left,
`2 * c` bytes each, and `ov_pcm_seek` lands exactly on the frame asked for. -/
def pcmDecoder (c total : Nat) : OvDecoder Nat :=
  { ov_read := fun frame length =>
      ((min (length.toNat / (2 * c)) (total - frame) * (2 * c) : Nat),
        frame + min (length.toNat / (2 * c)) (total - frame)),
    ov_pcm_seek := fun _ pos => (0, pos.toNat) }

/-- A file system with the file `a.ogg` of 3 bytes and the empty file `empty.ogg`. -/
def sourceFiles : String → Option (List Nat) := fun path =>
  if path = "a.ogg" then some [10, 20, 30]
  else if path = "empty.ogg" then some []
  else none

/-- The record that loading `loadingArchive` with 2 framing bytes leaves: the payload of
3 bytes stands at offset 10 of `sounds.pak` and `rawData` holds nothing. -/
def loadedBank : FAudioBank :=
  { pathToArchive := "sounds.pak", offsetToRawData := 10, rawDataSize := 3, rawData := [] }

/-- A decoder that yields 2 bytes to every `ov_read`, whatever was requested. -/
def twoByteDecoder : OvDecoder Unit :=
  { ov_read := fun _ _ => (2, ()),
    ov_pcm_seek := fun _ _ => (0, ()) }

/-! ## Machine integer lemmas -/

theorem toU64_lt (x : Int) : toU64 x < U64_SIZE := by
  unfold toU64 U64_SIZE
  omega

theorem toU64_of_nonneg_of_lt (x : Int) (h0 : 0 ≤ x) (h : x < 2 ^ 64) : (toU64 x : Int) = x := by
  unfold toU64
  omega

theorem toSigned_int_le (x : Int) (h : 0 ≤ x) : toSigned INT_BITS x ≤ x := by
  unfold toSigned INT_BITS
  dsimp only
  split_ifs <;> omega

theorem toSigned_ogg_of_lt (x : Int) (h0 : 0 ≤ x) (h : x < 2 ^ 63) :
    toSigned OGG_INT64_BITS x = x := by
  unfold toSigned OGG_INT64_BITS
  dsimp only
  split_ifs <;> omega

/-! ## Archive_ReadOgg -/

theorem Archive_ReadOgg_fst (s1 s2 : Nat) (d : FArchiveOGGRawData) :
    (Archive_ReadOgg s1 s2 d).1 =
      if (d.archive.pos + (s1 * s2) % U64_SIZE) % U64_SIZE > d.endOffset then
        toU64 ((d.endOffset : Int) - (d.archive.pos : Int))
      else (s1 * s2) % U64_SIZE := by
  simp [Archive_ReadOgg, FArchive.Tell]

theorem Archive_ReadOgg_pos (s1 s2 : Nat) (d : FArchiveOGGRawData) :
    (Archive_ReadOgg s1 s2 d).2.archive.pos = d.archive.pos + (Archive_ReadOgg s1 s2 d).1 := by
  simp only [Archive_ReadOgg, FArchive.Tell, FArchive.Serialize]
  split <;> split <;> simp_all

/-- When `currentOffset + size` does not wrap around, the read is trimmed to the range:
at most `endOffset - currentOffset` bytes are requested and the archive ends at most
at `endOffset`. -/
theorem Archive_ReadOgg_trims_without_wrap (s1 s2 : Nat) (d : FArchiveOGGRawData)
    (hpe : d.archive.pos ≤ d.endOffset) (he : d.endOffset < U64_SIZE)
    (hsum : d.archive.pos + (s1 * s2) % U64_SIZE < U64_SIZE) :
    (Archive_ReadOgg s1 s2 d).1 ≤ d.endOffset - d.archive.pos ∧
      (Archive_ReadOgg s1 s2 d).2.archive.pos ≤ d.endOffset := by
  have hfst := Archive_ReadOgg_fst s1 s2 d
  have hpos := Archive_ReadOgg_pos s1 s2 d
  have hmod : (d.archive.pos + (s1 * s2) % U64_SIZE) % U64_SIZE
      = d.archive.pos + (s1 * s2) % U64_SIZE := Nat.mod_eq_of_lt hsum
  rw [hmod] at hfst
  have hu : (toU64 ((d.endOffset : Int) - (d.archive.pos : Int)) : Int)
      = (d.endOffset : Int) - (d.archive.pos : Int) := by
    apply toU64_of_nonneg_of_lt
    · omega
    · unfold U64_SIZE at he; omega
  split at hfst <;> omega

/-- C1, evaluated at the range `[0, 10]` with the archive at position 1 and a request of
`2 ^ 64 - 1` bytes: `currentOffset + size` wraps around to 0, the request is not trimmed,
`Archive_ReadOgg` asks the archive for all `2 ^ 64 - 1` bytes although only 9 remain, and
the archive ends beyond `endOffset`. -/
theorem Archive_ReadOgg_wrap_reads_past_end :
    readWrapInput.beginOffset ≤ readWrapInput.archive.pos ∧
    readWrapInput.archive.pos ≤ readWrapInput.endOffset ∧
    (Archive_ReadOgg 18446744073709551615 1 readWrapInput).1 = 18446744073709551615 ∧
    (Archive_ReadOgg 18446744073709551615 1 readWrapInput).2.archive.calls
      = [ArchiveCall.Tell, ArchiveCall.Serialize 18446744073709551615] ∧
    ¬ (Archive_ReadOgg 18446744073709551615 1 readWrapInput).1
        ≤ readWrapInput.endOffset - readWrapInput.archive.pos ∧
    ¬ (Archive_ReadOgg 18446744073709551615 1 readWrapInput).2.archive.pos
        ≤ readWrapInput.endOffset := by
  simp [Archive_ReadOgg, readWrapInput, FArchive.Tell, FArchive.Serialize, U64_SIZE, toU64]

/-! ## Archive_SeekOgg -/

theorem seekClamp_mem_range (d : FArchiveOGGRawData) (c : Nat)
    (hbe : d.beginOffset ≤ d.endOffset) :
    d.beginOffset ≤ (seekClamp d c).1 ∧ (seekClamp d c).1 ≤ d.endOffset := by
  unfold seekClamp
  by_cases h1 : c < d.beginOffset
  · have h2 : ¬ d.beginOffset > d.endOffset := by omega
    simp [h1, h2, hbe]
  · by_cases h2 : c > d.endOffset
    · simp [h1, h2, hbe]
    · simp only [h1, h2, if_false]
      omega

theorem seekClamp_of_below (d : FArchiveOGGRawData) (c : Nat) (hbe : d.beginOffset ≤ d.endOffset)
    (h : c < d.beginOffset) : seekClamp d c = (d.beginOffset, -1) := by
  unfold seekClamp
  have h2 : ¬ d.beginOffset > d.endOffset := by omega
  simp [h, h2]

theorem seekClamp_of_inside (d : FArchiveOGGRawData) (c : Nat)
    (hb : d.beginOffset ≤ c) (he : c ≤ d.endOffset) : seekClamp d c = (c, 0) := by
  unfold seekClamp
  have h1 : ¬ c < d.beginOffset := by omega
  have h2 : ¬ c > d.endOffset := by omega
  simp [h1, h2]

theorem Archive_SeekOgg_of_candidate (d : FArchiveOGGRawData) (InTo InType : Int) (c : Nat)
    (hc : seekCandidate d d.archive.pos InTo InType = some c) :
    (Archive_SeekOgg d InTo InType).1 = (seekClamp d c).2 ∧
      (Archive_SeekOgg d InTo InType).2.archive.pos = (seekClamp d c).1 ∧
      (Archive_SeekOgg d InTo InType).2.beginOffset = d.beginOffset ∧
      (Archive_SeekOgg d InTo InType).2.endOffset = d.endOffset := by
  have hc2 : seekCandidate d d.archive.Tell.1 InTo InType = some c := by
    simpa [FArchive.Tell] using hc
  simp [Archive_SeekOgg, hc2, FArchive.Seek]

theorem seekCandidate_isSome_of_mode (d : FArchiveOGGRawData) (p : Nat) (InTo InType : Int)
    (hmode : InType = SEEK_CUR ∨ InType = SEEK_END ∨ InType = SEEK_SET) :
    ∃ c, seekCandidate d p InTo InType = some c := by
  rcases hmode with h | h | h <;> subst h <;>
    simp [seekCandidate, seekTargetInt, SEEK_CUR, SEEK_END, SEEK_SET]

/-- An integer target that fits a `uint64` is the candidate the code computes. -/
theorem seekCandidate_of_target_in_u64 (d : FArchiveOGGRawData) (p : Nat) (InTo InType z : Int)
    (hz : seekTargetInt d p InTo InType = some z) (h0 : 0 ≤ z) (h1 : z < 2 ^ 64) :
    seekCandidate d p InTo InType = some z.toNat := by
  have h := toU64_of_nonneg_of_lt z h0 h1
  simp only [seekCandidate, hz, Option.map_some']
  congr 1
  omega

/-- C2: for a range with `beginOffset ≤ endOffset`, any starting position, any target and
each of the modes `SEEK_CUR`, `SEEK_END`, `SEEK_SET`, the position at which
`Archive_SeekOgg` leaves the archive lies in `[beginOffset, endOffset]`. -/
theorem Archive_SeekOgg_position_in_range (d : FArchiveOGGRawData) (InTo InType : Int)
    (hbe : d.beginOffset ≤ d.endOffset)
    (hmode : InType = SEEK_CUR ∨ InType = SEEK_END ∨ InType = SEEK_SET) :
    d.beginOffset ≤ (Archive_SeekOgg d InTo InType).2.archive.pos ∧
      (Archive_SeekOgg d InTo InType).2.archive.pos ≤ d.endOffset := by
  obtain ⟨c, hc⟩ := seekCandidate_isSome_of_mode d d.archive.pos InTo InType hmode
  have h := Archive_SeekOgg_of_candidate d InTo InType c hc
  rw [h.2.1]
  exact seekClamp_mem_range d c hbe

theorem Archive_SeekOgg_position_in_range_witness :
    (rangeFiveTen 7).beginOffset ≤ (rangeFiveTen 7).endOffset ∧
    (rangeFiveTen 7).beginOffset ≤ (Archive_SeekOgg (rangeFiveTen 7) 100 SEEK_SET).2.archive.pos ∧
    (Archive_SeekOgg (rangeFiveTen 7) 100 SEEK_SET).2.archive.pos ≤ (rangeFiveTen 7).endOffset :=
  ⟨by decide, Archive_SeekOgg_position_in_range (rangeFiveTen 7) 100 SEEK_SET (by decide)
    (Or.inr (Or.inr rfl))⟩

/-- An integer candidate below `beginOffset` that is not negative is clamped to
`beginOffset` and the call returns -1. -/
theorem Archive_SeekOgg_below_begin_nonneg (d : FArchiveOGGRawData) (InTo InType z : Int)
    (hbe : d.beginOffset ≤ d.endOffset) (hb : d.beginOffset < U64_SIZE)
    (hz : seekTargetInt d d.archive.pos InTo InType = some z)
    (h0 : 0 ≤ z) (hlt : z < d.beginOffset) :
    (Archive_SeekOgg d InTo InType).1 = -1 ∧
      (Archive_SeekOgg d InTo InType).2.archive.pos = d.beginOffset := by
  have hz64 : z < 2 ^ 64 := by unfold U64_SIZE at hb; omega
  have hc := seekCandidate_of_target_in_u64 d d.archive.pos InTo InType z hz h0 hz64
  have h := Archive_SeekOgg_of_candidate d InTo InType z.toNat hc
  have hcl := seekClamp_of_below d z.toNat hbe (by omega)
  rw [h.1, h.2.1, hcl]
  exact ⟨rfl, rfl⟩

/-- C3, evaluated on the range `[5, 10]` with the archive at position 5: in each mode a
target whose integer candidate is -1, below `beginOffset`, makes `Archive_SeekOgg` return
-1 but position the archive at `endOffset = 10`, not at `beginOffset = 5`: the candidate
is stored in a `uint64`, where -1 is `2 ^ 64 - 1`, and only the upper clamp applies. -/
theorem Archive_SeekOgg_negative_candidate_goes_to_end :
    (seekTargetInt (rangeFiveTen 5) 5 (-6) SEEK_CUR = some (-1) ∧
      (Archive_SeekOgg (rangeFiveTen 5) (-6) SEEK_CUR).1 = -1 ∧
      (Archive_SeekOgg (rangeFiveTen 5) (-6) SEEK_CUR).2.archive.pos = 10) ∧
    (seekTargetInt (rangeFiveTen 5) 5 11 SEEK_END = some (-1) ∧
      (Archive_SeekOgg (rangeFiveTen 5) 11 SEEK_END).1 = -1 ∧
      (Archive_SeekOgg (rangeFiveTen 5) 11 SEEK_END).2.archive.pos = 10) ∧
    (seekTargetInt (rangeFiveTen 5) 5 (-6) SEEK_SET = some (-1) ∧
      (Archive_SeekOgg (rangeFiveTen 5) (-6) SEEK_SET).1 = -1 ∧
      (Archive_SeekOgg (rangeFiveTen 5) (-6) SEEK_SET).2.archive.pos = 10) := by
  simp [Archive_SeekOgg, seekCandidate, seekTargetInt, seekClamp, rangeFiveTen, FArchive.Tell,
    FArchive.Seek, toU64, SEEK_CUR, SEEK_END, SEEK_SET]

/-- An integer candidate inside the range is what the code computes, so the archive is
sought exactly there and the call returns 0. -/
theorem Archive_SeekOgg_inside_int (d : FArchiveOGGRawData) (InTo InType z : Int)
    (he64 : d.endOffset < U64_SIZE)
    (hz : seekTargetInt d d.archive.pos InTo InType = some z)
    (hb : (d.beginOffset : Int) ≤ z) (he : z ≤ (d.endOffset : Int)) :
    (Archive_SeekOgg d InTo InType).1 = 0 ∧
      ((Archive_SeekOgg d InTo InType).2.archive.pos : Int) = z := by
  have hz64 : z < 2 ^ 64 := by unfold U64_SIZE at he64; omega
  have hc := seekCandidate_of_target_in_u64 d d.archive.pos InTo InType z hz (by omega) hz64
  have h := Archive_SeekOgg_of_candidate d InTo InType z.toNat hc
  have hcl := seekClamp_of_inside d z.toNat (by omega) (by omega)
  refine ⟨by rw [h.1, hcl], ?_⟩
  rw [h.2.1, hcl]
  simp only
  omega

/-! ## Archive_TellOgg -/

theorem OpenBank_of_not_empty (DO_CHECK : Bool) (LONG_BITS : Nat)
    (GFileSystem : String → Option FArchive) (codec : OggVorbisCodec) (self : FAudioBank)
    (OutBankInfo : FAudioBankInfo) (w : World)
    (hne : self.rawDataSize ≠ 0)
    (hoff : DO_CHECK = true → self.offsetToRawData ≠ OFFSET_UNSET) :
    OpenBank DO_CHECK LONG_BITS GFileSystem codec self OutBankInfo w =
      match GFileSystem self.pathToArchive with
      | none =>
        Except.ok (openBankFailed OV_FALSE false OutBankInfo
          { w with
            rawDataDescsCreated := w.rawDataDescsCreated + 1,
            createFileReaderCalls := w.createFileReaderCalls + 1 })
      | some archive =>
        if (runOvOpen LONG_BITS codec.ov_open_callbacks (bindReader self archive)).1 < 0 then
          Except.ok (openBankFailed
            (runOvOpen LONG_BITS codec.ov_open_callbacks (bindReader self archive)).1 true
            OutBankInfo
            { w with
              rawDataDescsCreated := w.rawDataDescsCreated + 1,
              createFileReaderCalls := w.createFileReaderCalls + 1,
              readersCreated := w.readersCreated + 1,
              audioBankOggsCreated := w.audioBankOggsCreated + 1,
              ovOpenCalls := w.ovOpenCalls + 1,
              archiveCalls := w.archiveCalls ++
                (runOvOpen LONG_BITS codec.ov_open_callbacks
                  (bindReader self archive)).2.archive.calls })
        else
          match codec.ov_info with
          | none => Except.error "audioBankOgg->vorbisInfo"
          | some vorbisInfo =>
            Except.ok
              { handle := some
                  { oggVorbisFile :=
                      (runOvOpen LONG_BITS codec.ov_open_callbacks (bindReader self archive)).2,
                    vorbisInfo := some vorbisInfo,
                    info :=
                      { numChannels := vorbisInfo.channels,
                        format :=
                          if vorbisInfo.channels = 1 then ESampleFormat.SF_Mono16
                          else ESampleFormat.SF_Stereo16,
                        rate := vorbisInfo.rate,
                        numSamples := codec.ov_pcm_total * vorbisInfo.channels * 2 },
                    sampleOffset := 0 },
                OutBankInfo :=
                  { numChannels := vorbisInfo.channels,
                    format :=
                      if vorbisInfo.channels = 1 then ESampleFormat.SF_Mono16
                      else ESampleFormat.SF_Stereo16,
                    rate := vorbisInfo.rate,
                    numSamples := codec.ov_pcm_total * vorbisInfo.channels * 2 },
                world :=
                  { w with
                    rawDataDescsCreated := w.rawDataDescsCreated + 1,
                    createFileReaderCalls := w.createFileReaderCalls + 1,
                    readersCreated := w.readersCreated + 1,
                    audioBankOggsCreated := w.audioBankOggsCreated + 1,
                    ovOpenCalls := w.ovOpenCalls + 1,
                    archiveCalls := w.archiveCalls ++
                      (runOvOpen LONG_BITS codec.ov_open_callbacks
                        (bindReader self archive)).2.archive.calls } } := by
  have h1 : self.IsEmpty = false := by simp [FAudioBank.IsEmpty, hne]
  have h2 : (DO_CHECK && self.offsetToRawData == OFFSET_UNSET) = false := by
    cases DO_CHECK
    · simp
    · simpa using hoff rfl
  unfold OpenBank
  simp only [h1, h2, Bool.false_eq_true, if_false]

theorem OpenBank_of_empty (DO_CHECK : Bool) (LONG_BITS : Nat)
    (GFileSystem : String → Option FArchive) (codec : OggVorbisCodec) (self : FAudioBank)
    (OutBankInfo : FAudioBankInfo) (w : World) (hempty : self.rawDataSize = 0) :
    OpenBank DO_CHECK LONG_BITS GFileSystem codec self OutBankInfo w
      = Except.ok { handle := none, OutBankInfo := OutBankInfo, world := w } := by
  simp [OpenBank, FAudioBank.IsEmpty, hempty]

/-- C7: for a bank whose `rawDataSize` is 0, and so for a freshly constructed one,
`OpenBank` returns the null handle and leaves the world as it was: no descriptor, no
archive reader, no call to the file system, the archive or the codec, no warning; the
caller's `OutBankInfo` is not written. -/
theorem OpenBank_empty (DO_CHECK : Bool) (LONG_BITS : Nat)
    (GFileSystem : String → Option FArchive) (codec : OggVorbisCodec) (self : FAudioBank)
    (OutBankInfo : FAudioBankInfo) (w : World) (hempty : self.rawDataSize = 0) :
    OpenBank DO_CHECK LONG_BITS GFileSystem codec self OutBankInfo w
        = Except.ok { handle := none, OutBankInfo := OutBankInfo, world := w } ∧
      OpenBank DO_CHECK LONG_BITS GFileSystem codec FAudioBank.new OutBankInfo w
        = Except.ok { handle := none, OutBankInfo := OutBankInfo, world := w } := by
  constructor
  · simp [OpenBank, FAudioBank.IsEmpty, hempty]
  · simp [OpenBank, FAudioBank.IsEmpty, FAudioBank.new]

theorem OpenBank_empty_witness :
    ({ corruptBank with rawDataSize := 0 } : FAudioBank).rawDataSize = 0 ∧
    OpenBank true 32 anyReader acceptingCodec { corruptBank with rawDataSize := 0 } blankInfo {}
      = Except.ok { handle := none, OutBankInfo := blankInfo, world := {} } :=
  ⟨rfl, (OpenBank_empty true 32 anyReader acceptingCodec { corruptBank with rawDataSize := 0 }
    blankInfo {} rfl).1⟩

/-- C8: for a non-empty bank whose archive reader cannot be created, `OpenBank` returns
normally with the null handle, logs the warning "not found", and does not call the
codec's `ov_open_callbacks`: no `FAudioBankOGG` is created and no archive call is made. -/
theorem OpenBank_reader_missing (DO_CHECK : Bool) (LONG_BITS : Nat)
    (GFileSystem : String → Option FArchive) (codec : OggVorbisCodec) (self : FAudioBank)
    (OutBankInfo : FAudioBankInfo) (w : World)
    (hne : self.rawDataSize ≠ 0)
    (hoff : DO_CHECK = true → self.offsetToRawData ≠ OFFSET_UNSET)
    (hfs : GFileSystem self.pathToArchive = none) :
    ∃ r, OpenBank DO_CHECK LONG_BITS GFileSystem codec self OutBankInfo w = Except.ok r ∧
      r.handle = none ∧
      r.OutBankInfo = OutBankInfo ∧
      r.world.warnings = w.warnings ++ ["Failed loading bank: not found"] ∧
      r.world.ovOpenCalls = w.ovOpenCalls ∧
      r.world.audioBankOggsCreated = w.audioBankOggsCreated ∧
      r.world.readersCreated = w.readersCreated ∧
      r.world.archiveCalls = w.archiveCalls := by
  rw [OpenBank_of_not_empty DO_CHECK LONG_BITS GFileSystem codec self OutBankInfo w hne hoff, hfs]
  refine ⟨_, rfl, ?_⟩
  simp [openBankFailed, strError, OV_FALSE]

theorem OpenBank_reader_missing_witness :
    corruptBank.rawDataSize ≠ 0 ∧ noReader corruptBank.pathToArchive = none ∧
    ∃ r, OpenBank true 32 noReader acceptingCodec corruptBank blankInfo {} = Except.ok r ∧
      r.handle = none ∧
      r.OutBankInfo = blankInfo ∧
      r.world.warnings = ({} : World).warnings ++ ["Failed loading bank: not found"] ∧
      r.world.ovOpenCalls = ({} : World).ovOpenCalls ∧
      r.world.audioBankOggsCreated = ({} : World).audioBankOggsCreated ∧
      r.world.readersCreated = ({} : World).readersCreated ∧
      r.world.archiveCalls = ({} : World).archiveCalls :=
  ⟨by decide, rfl,
    OpenBank_reader_missing true 32 noReader acceptingCodec corruptBank blankInfo {}
      (by decide) (fun _ => by decide) rfl⟩

/-- C9: for a non-empty bank (its offset resolved, the codec answering `ov_info` for a
stream it opened), `OpenBank` returns normally, and the handle is non-null exactly when
the archive reader was created and the result of `ov_open_callbacks` is not negative;
so every open failure, whatever the negative code, gives the null handle. -/
theorem OpenBank_handle_iff (DO_CHECK : Bool) (LONG_BITS : Nat)
    (GFileSystem : String → Option FArchive) (codec : OggVorbisCodec) (self : FAudioBank)
    (OutBankInfo : FAudioBankInfo) (w : World)
    (hne : self.rawDataSize ≠ 0)
    (hoff : DO_CHECK = true → self.offsetToRawData ≠ OFFSET_UNSET)
    (hinfo : codec.ov_info ≠ none) :
    ∃ r, OpenBank DO_CHECK LONG_BITS GFileSystem codec self OutBankInfo w = Except.ok r ∧
      (r.handle ≠ none ↔
        ∃ archive, GFileSystem self.pathToArchive = some archive ∧
          0 ≤ (runOvOpen LONG_BITS codec.ov_open_callbacks (bindReader self archive)).1) := by
  rw [OpenBank_of_not_empty DO_CHECK LONG_BITS GFileSystem codec self OutBankInfo w hne hoff]
  cases hfs : GFileSystem self.pathToArchive with
  | none => exact ⟨_, rfl, by simp [openBankFailed]⟩
  | some archive =>
    dsimp only
    by_cases herr : (runOvOpen LONG_BITS codec.ov_open_callbacks (bindReader self archive)).1 < 0
    · rw [if_pos herr]
      refine ⟨_, rfl, ?_⟩
      have h : ¬ 0 ≤ (runOvOpen LONG_BITS codec.ov_open_callbacks
          (bindReader self archive)).1 := by omega
      simp [openBankFailed, h]
    · cases hvi : codec.ov_info with
      | none => exact absurd hvi hinfo
      | some vorbisInfo =>
        rw [if_neg herr]
        dsimp only
        refine ⟨_, rfl, ?_⟩
        have h : 0 ≤ (runOvOpen LONG_BITS codec.ov_open_callbacks
            (bindReader self archive)).1 := by omega
        simp [h]

theorem OpenBank_handle_iff_witness :
    corruptBank.rawDataSize ≠ 0 ∧ acceptingCodec.ov_info ≠ none ∧
    ∃ r, OpenBank true 32 anyReader acceptingCodec corruptBank blankInfo {} = Except.ok r ∧
      (r.handle ≠ none ↔
        ∃ archive, anyReader corruptBank.pathToArchive = some archive ∧
          0 ≤ (runOvOpen 32 acceptingCodec.ov_open_callbacks
            (bindReader corruptBank archive)).1) :=
  ⟨by decide, by decide,
    OpenBank_handle_iff true 32 anyReader acceptingCodec corruptBank blankInfo {}
      (by decide) (fun _ => by decide) (by decide)⟩

/-- What `OpenBank` creates and releases when the codec rejects the stream: the descriptor
and the `FAudioBankOGG` are created and deleted, the archive reader is created and not
released. -/
theorem OpenBank_rejected_world (DO_CHECK : Bool) (LONG_BITS : Nat)
    (GFileSystem : String → Option FArchive) (codec : OggVorbisCodec) (self : FAudioBank)
    (OutBankInfo : FAudioBankInfo) (w : World) (archive : FArchive)
    (hne : self.rawDataSize ≠ 0)
    (hoff : DO_CHECK = true → self.offsetToRawData ≠ OFFSET_UNSET)
    (hfs : GFileSystem self.pathToArchive = some archive)
    (herr : (runOvOpen LONG_BITS codec.ov_open_callbacks (bindReader self archive)).1 < 0) :
    ∃ r, OpenBank DO_CHECK LONG_BITS GFileSystem codec self OutBankInfo w = Except.ok r ∧
      r.handle = none ∧
      r.world.rawDataDescsCreated = w.rawDataDescsCreated + 1 ∧
      r.world.rawDataDescsReleased = w.rawDataDescsReleased + 1 ∧
      r.world.audioBankOggsCreated = w.audioBankOggsCreated + 1 ∧
      r.world.audioBankOggsReleased = w.audioBankOggsReleased + 1 ∧
      r.world.readersCreated = w.readersCreated + 1 ∧
      r.world.readersReleased = w.readersReleased := by
  rw [OpenBank_of_not_empty DO_CHECK LONG_BITS GFileSystem codec self OutBankInfo w hne hoff, hfs]
  dsimp only
  rw [if_pos herr]
  refine ⟨_, rfl, ?_⟩
  simp [openBankFailed]

/-- C10, evaluated on a 4-byte bank whose payload the codec rejects with `OV_ENOTVORBIS`
after the reader was created: `OpenBank` returns the null handle with the descriptor and
the `FAudioBankOGG` deleted, but the archive reader it created is not released (one reader
created, none released), whereas `Archive_CloseOgg` releases the reader with the
descriptor. -/
theorem OpenBank_rejected_leaks_reader :
    (Archive_CloseOgg {}).2.readersReleased = 1 ∧
    (Archive_CloseOgg {}).2.rawDataDescsReleased = 1 ∧
    OpenBank true 32 anyReader rejectingCodec corruptBank blankInfo {} =
      Except.ok
        { handle := none,
          OutBankInfo := blankInfo,
          world :=
            { createFileReaderCalls := 1,
              readersCreated := 1,
              readersReleased := 0,
              rawDataDescsCreated := 1,
              rawDataDescsReleased := 1,
              audioBankOggsCreated := 1,
              audioBankOggsReleased := 1,
              ovOpenCalls := 1,
              archiveCalls :=
                [ArchiveCall.Seek 16, ArchiveCall.Tell, ArchiveCall.Serialize 4],
              warnings := ["Failed loading bank: bitstream does not contain any Vorbis data"] } } := by
  refine ⟨rfl, rfl, ?_⟩
  simp [OpenBank, FAudioBank.IsEmpty, corruptBank, anyReader, rejectingCodec, runOvOpen,
    bindReader, Archive_ReadOgg, FArchive.Tell, FArchive.Seek, FArchive.Serialize,
    openBankFailed, strError, OFFSET_UNSET, U64_SIZE, OV_ENOTVORBIS, OV_FALSE, OV_EREAD]

theorem OpenBank_of_opened (DO_CHECK : Bool) (LONG_BITS : Nat)
    (GFileSystem : String → Option FArchive) (codec : OggVorbisCodec) (self : FAudioBank)
    (OutBankInfo : FAudioBankInfo) (w : World) (archive : FArchive) (vorbisInfo : vorbis_info)
    (hne : self.rawDataSize ≠ 0)
    (hoff : DO_CHECK = true → self.offsetToRawData ≠ OFFSET_UNSET)
    (hfs : GFileSystem self.pathToArchive = some archive)
    (hopen : 0 ≤ (runOvOpen LONG_BITS codec.ov_open_callbacks (bindReader self archive)).1)
    (hvi : codec.ov_info = some vorbisInfo) :
    ∃ r h, OpenBank DO_CHECK LONG_BITS GFileSystem codec self OutBankInfo w = Except.ok r ∧
      r.handle = some h ∧
      h.info = r.OutBankInfo ∧
      h.vorbisInfo = some vorbisInfo ∧
      h.sampleOffset = 0 ∧
      r.OutBankInfo =
        { numChannels := vorbisInfo.channels,
          format :=
            if vorbisInfo.channels = 1 then ESampleFormat.SF_Mono16
            else ESampleFormat.SF_Stereo16,
          rate := vorbisInfo.rate,
          numSamples := codec.ov_pcm_total * vorbisInfo.channels * 2 } ∧
      r.world.warnings = w.warnings := by
  rw [OpenBank_of_not_empty DO_CHECK LONG_BITS GFileSystem codec self OutBankInfo w hne hoff, hfs]
  dsimp only
  have herr : ¬ (runOvOpen LONG_BITS codec.ov_open_callbacks (bindReader self archive)).1 < 0 := by
    omega
  rw [if_neg herr, hvi]
  exact ⟨_, _, rfl, rfl, rfl, rfl, rfl, rfl, rfl⟩

/-- C11: for a stream that is opened successfully and for which the codec reports `c`
channels, rate `R` and `N` PCM frames in total, `OpenBank` outputs `numChannels = c`,
`rate = R`, `numSamples = N * c * 2` and the mono format exactly when `c = 1` (so a mono
stream gives `numChannels = 1`, `numSamples = N * 1 * 2`), and the session stores the same
metadata. -/
theorem OpenBank_metadata (DO_CHECK : Bool) (LONG_BITS : Nat)
    (GFileSystem : String → Option FArchive) (codec : OggVorbisCodec) (self : FAudioBank)
    (OutBankInfo : FAudioBankInfo) (w : World) (archive : FArchive) (c R : Int)
    (hne : self.rawDataSize ≠ 0)
    (hoff : DO_CHECK = true → self.offsetToRawData ≠ OFFSET_UNSET)
    (hfs : GFileSystem self.pathToArchive = some archive)
    (hopen : 0 ≤ (runOvOpen LONG_BITS codec.ov_open_callbacks (bindReader self archive)).1)
    (hvi : codec.ov_info = some { channels := c, rate := R }) :
    ∃ r h, OpenBank DO_CHECK LONG_BITS GFileSystem codec self OutBankInfo w = Except.ok r ∧
      r.handle = some h ∧
      r.OutBankInfo.numChannels = c ∧
      r.OutBankInfo.rate = R ∧
      r.OutBankInfo.numSamples = codec.ov_pcm_total * c * 2 ∧
      (r.OutBankInfo.format = ESampleFormat.SF_Mono16 ↔ c = 1) ∧
      (c = 1 → r.OutBankInfo.numChannels = 1 ∧
        r.OutBankInfo.numSamples = codec.ov_pcm_total * 1 * 2) ∧
      h.info = r.OutBankInfo := by
  obtain ⟨r, h, hr, hh, hinfo, -, -, hout, hw⟩ :=
    OpenBank_of_opened DO_CHECK LONG_BITS GFileSystem codec self OutBankInfo w archive _
      hne hoff hfs hopen hvi
  refine ⟨r, h, hr, hh, ?_, ?_, ?_, ?_, ?_, hinfo⟩
  · rw [hout]
  · rw [hout]
  · rw [hout]
  · rw [hout]
    by_cases hc : c = 1 <;> simp [hc]
  · intro hc
    rw [hout]
    subst hc
    exact ⟨rfl, rfl⟩

theorem OpenBank_metadata_witness :
    corruptBank.rawDataSize ≠ 0 ∧
    ∃ r h, OpenBank true 32 anyReader acceptingCodec corruptBank blankInfo {} = Except.ok r ∧
      r.handle = some h ∧
      r.OutBankInfo.numChannels = 1 ∧
      r.OutBankInfo.rate = 44100 ∧
      r.OutBankInfo.numSamples = acceptingCodec.ov_pcm_total * 1 * 2 ∧
      (r.OutBankInfo.format = ESampleFormat.SF_Mono16 ↔ (1 : Int) = 1) ∧
      ((1 : Int) = 1 → r.OutBankInfo.numChannels = 1 ∧
        r.OutBankInfo.numSamples = acceptingCodec.ov_pcm_total * 1 * 2) ∧
      h.info = r.OutBankInfo :=
  ⟨by decide,
    OpenBank_metadata true 32 anyReader acceptingCodec corruptBank blankInfo {} { pos := 0 }
      1 44100 (by decide) (fun _ => by decide) rfl (by decide) rfl⟩

/-- C12 fails on a stream of 6 channels that the codec opens: `OpenBank` returns a session,
with `numChannels = 6` and the stereo format tag, instead of a format error. -/
theorem OpenBank_six_channels_yields_session :
    ((6 : Int) ≠ 1 ∧ (6 : Int) ≠ 2) ∧
    ∃ r h, OpenBank true 32 anyReader sixChannelCodec corruptBank blankInfo {} = Except.ok r ∧
      r.handle = some h ∧
      h.info.numChannels = 6 ∧
      h.info.format = ESampleFormat.SF_Stereo16 ∧
      r.world.warnings = ({} : World).warnings := by
  refine ⟨by decide, ?_⟩
  obtain ⟨r, h, hr, hh, hinfo, -, -, hout, hw⟩ :=
    OpenBank_of_opened true 32 anyReader sixChannelCodec corruptBank blankInfo {} { pos := 0 }
      { channels := 6, rate := 48000 } (by decide) (fun _ => by decide) rfl (by decide) rfl
  exact ⟨r, h, hr, hh, by rw [hinfo, hout], by rw [hinfo, hout]; rfl, hw⟩

/-- C12 as amended: for a stream that the codec opens, whatever channel count `c` it
reports, `OpenBank` yields a session and logs no warning; when `c` is not 1 (2 or any
other value) the format tag is the stereo one and `numChannels` keeps the value `c`. -/
theorem OpenBank_channels_not_one_is_stereo (DO_CHECK : Bool) (LONG_BITS : Nat)
    (GFileSystem : String → Option FArchive) (codec : OggVorbisCodec) (self : FAudioBank)
    (OutBankInfo : FAudioBankInfo) (w : World) (archive : FArchive) (c R : Int)
    (hne : self.rawDataSize ≠ 0)
    (hoff : DO_CHECK = true → self.offsetToRawData ≠ OFFSET_UNSET)
    (hfs : GFileSystem self.pathToArchive = some archive)
    (hopen : 0 ≤ (runOvOpen LONG_BITS codec.ov_open_callbacks (bindReader self archive)).1)
    (hvi : codec.ov_info = some { channels := c, rate := R })
    (hc : c ≠ 1) :
    ∃ r h, OpenBank DO_CHECK LONG_BITS GFileSystem codec self OutBankInfo w = Except.ok r ∧
      r.handle = some h ∧
      h.info.numChannels = c ∧
      h.info.format = ESampleFormat.SF_Stereo16 ∧
      r.OutBankInfo = h.info ∧
      r.world.warnings = w.warnings := by
  obtain ⟨r, h, hr, hh, hinfo, -, -, hout, hw⟩ :=
    OpenBank_of_opened DO_CHECK LONG_BITS GFileSystem codec self OutBankInfo w archive _
      hne hoff hfs hopen hvi
  refine ⟨r, h, hr, hh, by rw [hinfo, hout], ?_, hinfo.symm, hw⟩
  rw [hinfo, hout]
  simp [hc]

theorem OpenBank_channels_not_one_is_stereo_witness :
    corruptBank.rawDataSize ≠ 0 ∧ (6 : Int) ≠ 1 ∧
    ∃ r h, OpenBank true 32 anyReader sixChannelCodec corruptBank blankInfo {} = Except.ok r ∧
      r.handle = some h ∧
      h.info.numChannels = 6 ∧
      h.info.format = ESampleFormat.SF_Stereo16 ∧
      r.OutBankInfo = h.info ∧
      r.world.warnings = ({} : World).warnings :=
  ⟨by decide, by decide,
    OpenBank_channels_not_one_is_stereo true 32 anyReader sixChannelCodec corruptBank blankInfo {}
      { pos := 0 } 6 48000 (by decide) (fun _ => by decide) rfl (by decide) rfl (by decide)⟩

/-! ## ReadBankPCM -/

theorem ReadBankPCM_loop_of_done {σ : Type} (dec : OvDecoder σ) (InMaxSize fuel : Nat)
    (st : ReadBankPCMState σ) (h : ¬ st.size < InMaxSize) :
    ReadBankPCM_loop dec InMaxSize fuel st = some st := by
  cases fuel <;> simp [ReadBankPCM_loop, h]

theorem ReadBankPCM_loop_succ {σ : Type} (dec : OvDecoder σ) (InMaxSize fuel : Nat)
    (st : ReadBankPCMState σ) (h : st.size < InMaxSize) :
    ReadBankPCM_loop dec InMaxSize (fuel + 1) st =
      if (ReadBankPCM_body dec InMaxSize st).1 then
        ReadBankPCM_loop dec InMaxSize fuel (ReadBankPCM_body dec InMaxSize st).2
      else some (ReadBankPCM_body dec InMaxSize st).2 := by
  simp [ReadBankPCM_loop, h]

theorem ReadBankPCM_body_of_pos {σ : Type} (dec : OvDecoder σ) (InMaxSize : Nat)
    (st : ReadBankPCMState σ) (hlt : st.size < InMaxSize) (hmax : InMaxSize < U64_SIZE)
    (hpos : 0 < (dec.ov_read st.decoder (toSigned INT_BITS ((InMaxSize - st.size : Nat) : Int))).1) :
    ReadBankPCM_body dec InMaxSize st =
      (true,
        { size := toU64 ((st.size : Int) + (dec.ov_read st.decoder (toSigned INT_BITS ((InMaxSize - st.size : Nat) : Int))).1),
          InSamples := st.InSamples + (dec.ov_read st.decoder (toSigned INT_BITS ((InMaxSize - st.size : Nat) : Int))).1,
          audioBankOgg :=
            { st.audioBankOgg with
              sampleOffset := toU64 ((st.audioBankOgg.sampleOffset : Int)
                + (dec.ov_read st.decoder (toSigned INT_BITS ((InMaxSize - st.size : Nat) : Int))).1) },
          decoder := (dec.ov_read st.decoder (toSigned INT_BITS ((InMaxSize - st.size : Nat) : Int))).2,
          ovReadResults :=
            st.ovReadResults ++ [(dec.ov_read st.decoder (toSigned INT_BITS ((InMaxSize - st.size : Nat) : Int))).1],
          appErrorfCalls := st.appErrorfCalls }) := by
  have hL : ((InMaxSize - st.size) * 1) % U64_SIZE = InMaxSize - st.size := by
    rw [Nat.mul_one]
    exact Nat.mod_eq_of_lt (by omega)
  simp only [ReadBankPCM_body, hL, gt_iff_lt, hpos, if_true, Int.ediv_one]

theorem ReadBankPCM_body_of_not_pos {σ : Type} (dec : OvDecoder σ) (InMaxSize : Nat)
    (st : ReadBankPCMState σ) (hlt : st.size < InMaxSize) (hmax : InMaxSize < U64_SIZE)
    (hpos : ¬ 0 < (dec.ov_read st.decoder (toSigned INT_BITS ((InMaxSize - st.size : Nat) : Int))).1) :
    ReadBankPCM_body dec InMaxSize st =
      (false,
        { size := 0,
          InSamples := st.InSamples,
          audioBankOgg := st.audioBankOgg,
          decoder := (dec.ov_read st.decoder (toSigned INT_BITS ((InMaxSize - st.size : Nat) : Int))).2,
          ovReadResults :=
            st.ovReadResults ++ [(dec.ov_read st.decoder (toSigned INT_BITS ((InMaxSize - st.size : Nat) : Int))).1],
          appErrorfCalls := st.appErrorfCalls }) := by
  have hL : ((InMaxSize - st.size) * 1) % U64_SIZE = InMaxSize - st.size := by
    rw [Nat.mul_one]
    exact Nat.mod_eq_of_lt (by omega)
  have hneg : ¬ ((InMaxSize - st.size : Nat) : Int) < 0 := by omega
  simp only [ReadBankPCM_body, hL, gt_iff_lt, hpos, if_false, hneg, Nat.add_zero]

theorem ReadBankPCM_loop_succ_of_pos {σ : Type} (dec : OvDecoder σ) (InMaxSize fuel : Nat)
    (st : ReadBankPCMState σ) (hlt : st.size < InMaxSize) (hmax : InMaxSize < U64_SIZE)
    (hpos : 0 < (dec.ov_read st.decoder (toSigned INT_BITS ((InMaxSize - st.size : Nat) : Int))).1) :
    ReadBankPCM_loop dec InMaxSize (fuel + 1) st =
      ReadBankPCM_loop dec InMaxSize fuel
        { size := toU64 ((st.size : Int) + (dec.ov_read st.decoder (toSigned INT_BITS ((InMaxSize - st.size : Nat) : Int))).1),
          InSamples := st.InSamples + (dec.ov_read st.decoder (toSigned INT_BITS ((InMaxSize - st.size : Nat) : Int))).1,
          audioBankOgg :=
            { st.audioBankOgg with
              sampleOffset := toU64 ((st.audioBankOgg.sampleOffset : Int)
                + (dec.ov_read st.decoder (toSigned INT_BITS ((InMaxSize - st.size : Nat) : Int))).1) },
          decoder := (dec.ov_read st.decoder (toSigned INT_BITS ((InMaxSize - st.size : Nat) : Int))).2,
          ovReadResults :=
            st.ovReadResults ++ [(dec.ov_read st.decoder (toSigned INT_BITS ((InMaxSize - st.size : Nat) : Int))).1],
          appErrorfCalls := st.appErrorfCalls } := by
  rw [ReadBankPCM_loop_succ dec InMaxSize fuel st hlt,
    ReadBankPCM_body_of_pos dec InMaxSize st hlt hmax hpos]
  rfl

theorem ReadBankPCM_loop_succ_of_not_pos {σ : Type} (dec : OvDecoder σ) (InMaxSize fuel : Nat)
    (st : ReadBankPCMState σ) (hlt : st.size < InMaxSize) (hmax : InMaxSize < U64_SIZE)
    (hpos : ¬ 0 < (dec.ov_read st.decoder (toSigned INT_BITS ((InMaxSize - st.size : Nat) : Int))).1) :
    ReadBankPCM_loop dec InMaxSize (fuel + 1) st =
      some
        { size := 0,
          InSamples := st.InSamples,
          audioBankOgg := st.audioBankOgg,
          decoder := (dec.ov_read st.decoder (toSigned INT_BITS ((InMaxSize - st.size : Nat) : Int))).2,
          ovReadResults :=
            st.ovReadResults ++ [(dec.ov_read st.decoder (toSigned INT_BITS ((InMaxSize - st.size : Nat) : Int))).1],
          appErrorfCalls := st.appErrorfCalls } := by
  rw [ReadBankPCM_loop_succ dec InMaxSize fuel st hlt,
    ReadBankPCM_body_of_not_pos dec InMaxSize st hlt hmax hpos]
  rfl

theorem ReadBankPCM_loop_fuel_succ {σ : Type} (dec : OvDecoder σ) (InMaxSize : Nat) :
    ∀ (fuel : Nat) (st r : ReadBankPCMState σ),
      ReadBankPCM_loop dec InMaxSize fuel st = some r →
      ReadBankPCM_loop dec InMaxSize (fuel + 1) st = some r := by
  intro fuel
  induction fuel with
  | zero =>
    intro st r h
    by_cases hlt : st.size < InMaxSize
    · simp [ReadBankPCM_loop, hlt] at h
    · rw [ReadBankPCM_loop_of_done dec InMaxSize 0 st hlt] at h
      rw [ReadBankPCM_loop_of_done dec InMaxSize 1 st hlt]
      exact h
  | succ fuel ih =>
    intro st r h
    by_cases hlt : st.size < InMaxSize
    · rw [ReadBankPCM_loop_succ dec InMaxSize fuel st hlt] at h
      rw [ReadBankPCM_loop_succ dec InMaxSize (fuel + 1) st hlt]
      by_cases hb : (ReadBankPCM_body dec InMaxSize st).1 = true
      · rw [if_pos hb] at h
        rw [if_pos hb]
        exact ih _ r h
      · rw [if_neg hb] at h
        rw [if_neg hb]
        exact h
    · rw [ReadBankPCM_loop_of_done dec InMaxSize (fuel + 1) st hlt] at h
      rw [ReadBankPCM_loop_of_done dec InMaxSize (fuel + 1 + 1) st hlt]
      exact h

theorem ReadBankPCM_loop_fuel_le {σ : Type} (dec : OvDecoder σ) (InMaxSize : Nat)
    (fuel1 fuel2 : Nat) (hle : fuel1 ≤ fuel2) (st r : ReadBankPCMState σ)
    (h : ReadBankPCM_loop dec InMaxSize fuel1 st = some r) :
    ReadBankPCM_loop dec InMaxSize fuel2 st = some r := by
  induction fuel2 with
  | zero =>
    have h0 : fuel1 = 0 := by omega
    rw [h0] at h
    exact h
  | succ fuel2 ih =>
    by_cases heq : fuel1 = fuel2 + 1
    · rw [heq] at h
      exact h
    · exact ReadBankPCM_loop_fuel_succ dec InMaxSize fuel2 st r (ih (by omega))

theorem ReadBankPCM_body_appErrorfCalls {σ : Type} (dec : OvDecoder σ) (InMaxSize : Nat)
    (st : ReadBankPCMState σ) :
    (ReadBankPCM_body dec InMaxSize st).2.appErrorfCalls = st.appErrorfCalls := by
  have hneg : ¬ (((InMaxSize - st.size) * 1 % U64_SIZE : Nat) : Int) < 0 := by omega
  unfold ReadBankPCM_body
  dsimp only
  split_ifs <;> rfl

theorem ReadBankPCM_loop_full_or_zero {σ : Type} (dec : OvDecoder σ) (InMaxSize : Nat)
    (hmax : InMaxSize < U64_SIZE)
    (hcodec : ∀ (s : σ) (L : Int), (dec.ov_read s L).1 ≤ max L 0) :
    ∀ (fuel : Nat) (st : ReadBankPCMState σ), st.size ≤ InMaxSize → InMaxSize - st.size ≤ fuel →
      (∀ y ∈ st.ovReadResults, 0 < y) → st.ovReadResults.sum = (st.size : Int) →
      ∃ r, ReadBankPCM_loop dec InMaxSize fuel st = some r ∧
        (((∀ y ∈ r.ovReadResults, 0 < y) ∧ r.ovReadResults.sum = (InMaxSize : Int) ∧
            r.size = InMaxSize) ∨
          ((∃ y ∈ r.ovReadResults, y ≤ 0) ∧ r.size = 0)) := by
  intro fuel
  induction fuel with
  | zero =>
    intro st hle hfuel hall hsum
    have hsz : st.size = InMaxSize := by omega
    refine ⟨st, ReadBankPCM_loop_of_done dec InMaxSize 0 st (by omega), Or.inl ⟨hall, ?_, hsz⟩⟩
    rw [hsum, hsz]
  | succ fuel ih =>
    intro st hle hfuel hall hsum
    by_cases hlt : st.size < InMaxSize
    · by_cases hpos : 0 < (dec.ov_read st.decoder (toSigned INT_BITS ((InMaxSize - st.size : Nat) : Int))).1
      · rw [ReadBankPCM_loop_succ_of_pos dec InMaxSize fuel st hlt hmax hpos]
        have hL := toSigned_int_le ((InMaxSize - st.size : Nat) : Int) (by omega)
        have hb : (dec.ov_read st.decoder
            (toSigned INT_BITS ((InMaxSize - st.size : Nat) : Int))).1
            ≤ ((InMaxSize - st.size : Nat) : Int) := by
          rcases le_max_iff.mp
            (hcodec st.decoder (toSigned INT_BITS ((InMaxSize - st.size : Nat) : Int))) with h | h
          · omega
          · omega
        have hu : (toU64 ((st.size : Int) + (dec.ov_read st.decoder (toSigned INT_BITS ((InMaxSize - st.size : Nat) : Int))).1)
            : Int) = (st.size : Int) + (dec.ov_read st.decoder (toSigned INT_BITS ((InMaxSize - st.size : Nat) : Int))).1 := by
          apply toU64_of_nonneg_of_lt
          · omega
          · unfold U64_SIZE at hmax
            omega
        apply ih
        · show toU64 _ ≤ InMaxSize
          omega
        · show InMaxSize - toU64 _ ≤ fuel
          omega
        · intro y hy
          simp only [List.mem_append, List.mem_singleton] at hy
          rcases hy with hy | hy
          · exact hall y hy
          · rw [hy]
            exact hpos
        · show (st.ovReadResults ++ [_]).sum = ((toU64 _ : Nat) : Int)
          rw [List.sum_append, hsum, hu]
          simp
      · rw [ReadBankPCM_loop_succ_of_not_pos dec InMaxSize fuel st hlt hmax hpos]
        refine ⟨_, rfl, Or.inr ⟨⟨(dec.ov_read st.decoder (toSigned INT_BITS ((InMaxSize - st.size : Nat) : Int))).1, ?_, ?_⟩, rfl⟩⟩
        · simp
        · omega
    · have hsz : st.size = InMaxSize := by omega
      refine ⟨st, ReadBankPCM_loop_of_done dec InMaxSize _ st hlt, Or.inl ⟨hall, ?_, hsz⟩⟩
      rw [hsum, hsz]

/-- C13: with a codec that never yields more than the requested amount (nothing positive
for a `length` of 0 or less), `ReadBankPCM` returns (given `InMaxSize` passes of fuel) and
its result is `InMaxSize` or 0, never a value in between: it is `InMaxSize` exactly when
every `ov_read` of the call yielded a positive amount, these amounts then adding up to
`InMaxSize`, and 0 as soon as one call yielded zero or a negative value; in both cases
the result is at most `InMaxSize`. -/
theorem ReadBankPCM_full_or_zero {σ : Type} (dec : OvDecoder σ) (audioBankOgg : FAudioBankOGG)
    (decoder : σ) (InSamples : Int) (InMaxSize : Nat)
    (hmax : InMaxSize < U64_SIZE)
    (hcodec : ∀ (s : σ) (L : Int), (dec.ov_read s L).1 ≤ max L 0) :
    ∃ r, ReadBankPCM dec InMaxSize audioBankOgg decoder InSamples InMaxSize = some r ∧
      (r.size = InMaxSize ∨ r.size = 0) ∧
      r.size ≤ InMaxSize ∧
      ((∀ y ∈ r.ovReadResults, 0 < y) →
        r.size = InMaxSize ∧ r.ovReadResults.sum = (InMaxSize : Int)) ∧
      ((∃ y ∈ r.ovReadResults, y ≤ 0) → r.size = 0) ∧
      (r.size = InMaxSize ↔ (InMaxSize = 0 ∨ ∀ y ∈ r.ovReadResults, 0 < y)) := by
  obtain ⟨r, hr, h⟩ := ReadBankPCM_loop_full_or_zero dec InMaxSize hmax hcodec InMaxSize
    { size := 0, InSamples := InSamples, audioBankOgg := audioBankOgg, decoder := decoder,
      ovReadResults := [], appErrorfCalls := 0 }
    (Nat.zero_le _) (by simp) (by simp) (by simp)
  refine ⟨r, hr, ?_⟩
  rcases h with ⟨hall, hsum, hsz⟩ | ⟨⟨y, hy, hy0⟩, hsz⟩
  · refine ⟨Or.inl hsz, by omega, fun _ => ⟨hsz, hsum⟩, ?_, ?_⟩
    · rintro ⟨y, hy, hy0⟩
      have := hall y hy
      omega
    · exact ⟨fun _ => Or.inr hall, fun _ => hsz⟩
  · refine ⟨Or.inr hsz, by omega, ?_, fun _ => hsz, ?_⟩
    · intro hall
      have := hall y hy
      omega
    · constructor
      · intro h
        left
        omega
      · rintro (h | hall)
        · omega
        · have := hall y hy
          omega

theorem ReadBankPCM_full_or_zero_witness :
    (10 : Nat) < U64_SIZE ∧
    ∃ r, ReadBankPCM (chunkDecoder 3) 10 stereoSession 4000 0 10 = some r ∧
      (r.size = 10 ∨ r.size = 0) ∧
      r.size ≤ 10 ∧
      ((∀ y ∈ r.ovReadResults, 0 < y) → r.size = 10 ∧ r.ovReadResults.sum = ((10 : Nat) : Int)) ∧
      ((∃ y ∈ r.ovReadResults, y ≤ 0) → r.size = 0) ∧
      (r.size = 10 ↔ ((10 : Nat) = 0 ∨ ∀ y ∈ r.ovReadResults, 0 < y)) :=
  ⟨by decide,
    ReadBankPCM_full_or_zero (chunkDecoder 3) stereoSession 4000 0 10 (by decide)
      (fun s L => by
        show ((min (min L.toNat s) 3 : Nat) : Int) ≤ max L 0
        omega)⟩

/-- Whatever the codec returns, `ReadBankPCM` never reaches `appErrorf`: the test before
it is made on the unsigned `bytesToRead`, which is never below 0. -/
theorem ReadBankPCM_loop_appErrorfCalls {σ : Type} (dec : OvDecoder σ) (InMaxSize : Nat) :
    ∀ (fuel : Nat) (st r : ReadBankPCMState σ),
      ReadBankPCM_loop dec InMaxSize fuel st = some r → r.appErrorfCalls = st.appErrorfCalls := by
  intro fuel
  induction fuel with
  | zero =>
    intro st r h
    by_cases hlt : st.size < InMaxSize
    · simp [ReadBankPCM_loop, hlt] at h
    · simp [ReadBankPCM_loop, hlt] at h
      rw [← h]
  | succ fuel ih =>
    intro st r h
    by_cases hlt : st.size < InMaxSize
    · rw [ReadBankPCM_loop_succ dec InMaxSize fuel st hlt] at h
      by_cases hb : (ReadBankPCM_body dec InMaxSize st).1 = true
      · rw [if_pos hb] at h
        rw [ih _ r h]
        exact ReadBankPCM_body_appErrorfCalls dec InMaxSize st
      · rw [if_neg hb] at h
        simp only [Option.some.injEq] at h
        rw [← h]
        exact ReadBankPCM_body_appErrorfCalls dec InMaxSize st
    · rw [ReadBankPCM_loop_of_done dec InMaxSize _ st hlt] at h
      simp only [Option.some.injEq] at h
      rw [← h]

/-- C14, evaluated on a session whose decoder answers `OV_HOLE` (-3), a decode error, to
the first `ov_read` of a call with `InMaxSize = 8`: `ReadBankPCM` returns 0 as it does at
the end of the stream and `appErrorf` is not reached, because the test before it reads
the unsigned `bytesToRead` instead of `bytesRead`. -/
theorem ReadBankPCM_decode_error_returns_normally :
    (ReadBankPCM holeDecoder 8 stereoSession () 0 8).map
        (fun r => (r.size, r.ovReadResults, r.appErrorfCalls))
      = some (0, [OV_HOLE], 0) ∧
    OV_HOLE < 0 := by
  constructor
  · simp [ReadBankPCM, ReadBankPCM_loop, ReadBankPCM_body, holeDecoder, OV_HOLE, U64_SIZE]
  · decide

/-- C17: for an open session (whose recorded channel count is not 0) and every offset
`k`, `SeekBankPCM( handle, k )` returns and `GetOffsetBankPCM` then returns exactly `k`,
whatever the decoder and whatever its `ov_pcm_seek` reports. -/
theorem GetOffsetBankPCM_after_SeekBankPCM {σ : Type} (dec : OvDecoder σ)
    (audioBankOgg : FAudioBankOGG) (decoder : σ) (k : Nat)
    (hchannels : audioBankOgg.info.numChannels ≠ 0) :
    ∃ r, SeekBankPCM dec audioBankOgg decoder k = some r ∧
      GetOffsetBankPCM r.audioBankOgg = k := by
  rw [SeekBankPCM, if_neg hchannels]
  exact ⟨_, rfl, rfl⟩

theorem GetOffsetBankPCM_after_SeekBankPCM_witness :
    stereoSession.info.numChannels ≠ 0 ∧
    (failingSeekDecoder.ov_pcm_seek 4000 (3999 / 2)).1 = OV_EREAD ∧
    ∃ r, SeekBankPCM failingSeekDecoder stereoSession 4000 3999 = some r ∧
      GetOffsetBankPCM r.audioBankOgg = 3999 :=
  ⟨by decide, rfl,
    GetOffsetBankPCM_after_SeekBankPCM failingSeekDecoder stereoSession 4000 3999 (by decide)⟩

theorem applyCall_self {σ : Type} (DO_CHECK : Bool) (LONG_BITS : Nat)
    (GFileSystem : String → Option FArchive) (codec : OggVorbisCodec) (dec : OvDecoder σ)
    (decoder0 : σ) (fuel : Nat) (call : BankCall) (sys sys1 : BankSystem σ)
    (h : applyCall DO_CHECK LONG_BITS GFileSystem codec dec decoder0 fuel call sys = some sys1) :
    sys1.self = sys.self := by
  cases call with
  | OpenBank =>
    simp only [applyCall] at h
    split at h
    · exact absurd h (by simp)
    · simp only [Option.some.injEq] at h
      rw [← h]
  | CloseBank =>
    simp only [applyCall, Option.some.injEq] at h
    rw [← h]
  | ReadBankPCM InMaxSize =>
    simp only [applyCall] at h
    split at h
    · exact absurd h (by simp)
    · split at h
      · exact absurd h (by simp)
      · simp only [Option.some.injEq] at h
        rw [← h]
  | SeekBankPCM InSampleOffset =>
    simp only [applyCall] at h
    split at h
    · exact absurd h (by simp)
    · split at h
      · exact absurd h (by simp)
      · simp only [Option.some.injEq] at h
        rw [← h]
  | GetOffsetBankPCM =>
    simp only [applyCall] at h
    split at h
    · exact absurd h (by simp)
    · simp only [Option.some.injEq] at h
      rw [← h]

theorem applyCalls_self {σ : Type} (DO_CHECK : Bool) (LONG_BITS : Nat)
    (GFileSystem : String → Option FArchive) (codec : OggVorbisCodec) (dec : OvDecoder σ)
    (decoder0 : σ) (fuel : Nat) :
    ∀ (calls : List BankCall) (sys sys1 : BankSystem σ),
      applyCalls DO_CHECK LONG_BITS GFileSystem codec dec decoder0 fuel calls sys = some sys1 →
      sys1.self = sys.self := by
  intro calls
  induction calls with
  | nil =>
    intro sys sys1 h
    simp only [applyCalls, Option.some.injEq] at h
    rw [← h]
  | cons call calls ih =>
    intro sys sys1 h
    simp only [applyCalls] at h
    split at h
    · exact absurd h (by simp)
    · rename_i sys2 h2
      rw [ih sys2 sys1 h]
      exact applyCall_self DO_CHECK LONG_BITS GFileSystem codec dec decoder0 fuel call sys sys2 h2

theorem OpenBank_handle_some_inv (DO_CHECK : Bool) (LONG_BITS : Nat)
    (GFileSystem : String → Option FArchive) (codec : OggVorbisCodec) (self : FAudioBank)
    (OutBankInfo : FAudioBankInfo) (w : World) (r : OpenBankResult) (h : FAudioBankOGG)
    (hr : OpenBank DO_CHECK LONG_BITS GFileSystem codec self OutBankInfo w = Except.ok r)
    (hh : r.handle = some h) :
    self.rawDataSize ≠ 0 ∧ (DO_CHECK = true → self.offsetToRawData ≠ OFFSET_UNSET) ∧
      ∃ archive vorbisInfo, GFileSystem self.pathToArchive = some archive ∧
        0 ≤ (runOvOpen LONG_BITS codec.ov_open_callbacks (bindReader self archive)).1 ∧
        codec.ov_info = some vorbisInfo := by
  have hne : self.rawDataSize ≠ 0 := by
    intro h0
    rw [OpenBank_of_empty DO_CHECK LONG_BITS GFileSystem codec self OutBankInfo w h0] at hr
    simp only [Except.ok.injEq] at hr
    rw [← hr] at hh
    exact absurd hh (by simp)
  have hoff : DO_CHECK = true → self.offsetToRawData ≠ OFFSET_UNSET := by
    intro hc hu
    have h1 : self.IsEmpty = false := by simp [FAudioBank.IsEmpty, hne]
    simp [OpenBank, h1, hc, hu] at hr
  refine ⟨hne, hoff, ?_⟩
  rw [OpenBank_of_not_empty DO_CHECK LONG_BITS GFileSystem codec self OutBankInfo w hne hoff] at hr
  cases hfs : GFileSystem self.pathToArchive with
  | none =>
    rw [hfs] at hr
    simp only [Except.ok.injEq] at hr
    rw [← hr] at hh
    exact absurd hh (by simp [openBankFailed])
  | some archive =>
    rw [hfs] at hr
    dsimp only at hr
    by_cases herr : (runOvOpen LONG_BITS codec.ov_open_callbacks (bindReader self archive)).1 < 0
    · rw [if_pos herr] at hr
      simp only [Except.ok.injEq] at hr
      rw [← hr] at hh
      exact absurd hh (by simp [openBankFailed])
    · rw [if_neg herr] at hr
      cases hvi : codec.ov_info with
      | none =>
        rw [hvi] at hr
        exact absurd hr (by simp)
      | some vorbisInfo => exact ⟨archive, vorbisInfo, rfl, by omega, rfl⟩

/-- C18: a sequence of `OpenBank`, `ReadBankPCM`, `SeekBankPCM`, `GetOffsetBankPCM` and
`CloseBank` calls leaves `pathToArchive`, `offsetToRawData` and `rawDataSize` of the bank
record unchanged; so when the record could be opened before the sequence, it can be
opened after it, and with the same file system and codec answers `OpenBank` gives the
same metadata as the first time. -/
theorem bank_record_unchanged {σ : Type} (DO_CHECK : Bool) (LONG_BITS : Nat)
    (GFileSystem : String → Option FArchive) (codec : OggVorbisCodec) (dec : OvDecoder σ)
    (decoder0 : σ) (fuel : Nat) (calls : List BankCall) (sys sys1 : BankSystem σ)
    (hrun : applyCalls DO_CHECK LONG_BITS GFileSystem codec dec decoder0 fuel calls sys
      = some sys1) :
    sys1.self.pathToArchive = sys.self.pathToArchive ∧
      sys1.self.offsetToRawData = sys.self.offsetToRawData ∧
      sys1.self.rawDataSize = sys.self.rawDataSize ∧
      ∀ (info1 : FAudioBankInfo) (w1 : World) (r1 : OpenBankResult) (h1 : FAudioBankOGG),
        OpenBank DO_CHECK LONG_BITS GFileSystem codec sys.self info1 w1 = Except.ok r1 →
        r1.handle = some h1 →
        ∀ (info2 : FAudioBankInfo) (w2 : World),
          ∃ r2 h2, OpenBank DO_CHECK LONG_BITS GFileSystem codec sys1.self info2 w2
              = Except.ok r2 ∧
            r2.handle = some h2 ∧ r2.OutBankInfo = r1.OutBankInfo ∧ h2.info = h1.info := by
  have hself := applyCalls_self DO_CHECK LONG_BITS GFileSystem codec dec decoder0 fuel calls
    sys sys1 hrun
  rw [hself]
  refine ⟨rfl, rfl, rfl, ?_⟩
  intro info1 w1 r1 h1 hr1 hh1 info2 w2
  obtain ⟨hne, hoff, archive, vorbisInfo, hfs, hopen, hvi⟩ :=
    OpenBank_handle_some_inv DO_CHECK LONG_BITS GFileSystem codec sys.self info1 w1 r1 h1 hr1 hh1
  obtain ⟨ra, ha, hra, hha, hinfoa, -, -, houta, -⟩ :=
    OpenBank_of_opened DO_CHECK LONG_BITS GFileSystem codec sys.self info1 w1 archive vorbisInfo
      hne hoff hfs hopen hvi
  obtain ⟨rb, hb, hrb, hhb, hinfob, -, -, houtb, -⟩ :=
    OpenBank_of_opened DO_CHECK LONG_BITS GFileSystem codec sys.self info2 w2 archive vorbisInfo
      hne hoff hfs hopen hvi
  rw [hr1] at hra
  simp only [Except.ok.injEq] at hra
  subst hra
  rw [hh1] at hha
  simp only [Option.some.injEq] at hha
  subst hha
  exact ⟨rb, hb, hrb, hhb, by rw [houtb, houta], by rw [hinfob, hinfoa, houtb, houta]⟩

theorem bank_record_unchanged_witness :
    ∃ sys1, applyCalls true 32 anyReader acceptingCodec (chunkDecoder 3) 2000 4
        [BankCall.OpenBank, BankCall.ReadBankPCM 4, BankCall.SeekBankPCM 2,
          BankCall.GetOffsetBankPCM, BankCall.CloseBank] closedSystem = some sys1 ∧
      sys1.self.pathToArchive = closedSystem.self.pathToArchive ∧
      sys1.self.offsetToRawData = closedSystem.self.offsetToRawData ∧
      sys1.self.rawDataSize = closedSystem.self.rawDataSize ∧
      ∀ (info1 : FAudioBankInfo) (w1 : World) (r1 : OpenBankResult) (h1 : FAudioBankOGG),
        OpenBank true 32 anyReader acceptingCodec closedSystem.self info1 w1 = Except.ok r1 →
        r1.handle = some h1 →
        ∀ (info2 : FAudioBankInfo) (w2 : World),
          ∃ r2 h2, OpenBank true 32 anyReader acceptingCodec sys1.self info2 w2
              = Except.ok r2 ∧
            r2.handle = some h2 ∧ r2.OutBankInfo = r1.OutBankInfo ∧ h2.info = h1.info :=
  (Option.isSome_iff_exists.mp
    (show (applyCalls true 32 anyReader acceptingCodec (chunkDecoder 3) 2000 4
        [BankCall.OpenBank, BankCall.ReadBankPCM 4, BankCall.SeekBankPCM 2,
          BankCall.GetOffsetBankPCM, BankCall.CloseBank] closedSystem).isSome = true from
      by decide)).elim
    (fun sys1 h =>
      ⟨sys1, h, bank_record_unchanged true 32 anyReader acceptingCodec (chunkDecoder 3) 2000 4
        _ closedSystem sys1 h⟩)

/-! ## Serialize -/

theorem fromLE_toLE64 (n : Nat) (h : n < U64_SIZE) : fromLE (toLE64 n) = n := by
  unfold U64_SIZE at h
  simp only [toLE64, fromLE, List.range, List.range.loop, List.map, List.foldr]
  omega

theorem FArchiveStream.Serialize_isLoading (a : FArchiveStream) (buffer : List Nat) (n : Nat) :
    (a.Serialize buffer n).2.isLoading = a.isLoading ∧ (a.Serialize buffer n).2.path = a.path := by
  unfold FArchiveStream.Serialize
  split <;> exact ⟨rfl, rfl⟩

theorem serializeRawDataSize_isLoading (assetHeader : List Nat) (self : FAudioBank)
    (InArchive : FArchiveStream) :
    (serializeRawDataSize assetHeader self InArchive).2.isLoading = InArchive.isLoading ∧
      (serializeRawDataSize assetHeader self InArchive).2.path = InArchive.path := by
  unfold serializeRawDataSize FArchiveStream.shiftU64 FAsset_Serialize
  have h1 := FArchiveStream.Serialize_isLoading InArchive assetHeader assetHeader.length
  have h2 := FArchiveStream.Serialize_isLoading (InArchive.Serialize assetHeader assetHeader.length).2
    (toLE64 self.rawDataSize) 8
  exact ⟨h2.1.trans h1.1, h2.2.trans h1.2⟩

theorem Serialize_of_loading_pos (WITH_EDITOR : Bool) (assetHeader : List Nat)
    (self : FAudioBank) (InArchive : FArchiveStream) (hload : InArchive.isLoading = true)
    (hpos : 0 < fromLE (serializeRawDataSize assetHeader self InArchive).1) :
    self.Serialize WITH_EDITOR assetHeader InArchive =
      some
        ({ self with
            rawDataSize := fromLE (serializeRawDataSize assetHeader self InArchive).1,
            offsetToRawData := (serializeRawDataSize assetHeader self InArchive).2.pos,
            pathToArchive := (serializeRawDataSize assetHeader self InArchive).2.path },
          (serializeRawDataSize assetHeader self InArchive).2.Tell.2.Seek
            (((serializeRawDataSize assetHeader self InArchive).2.pos
              + fromLE (serializeRawDataSize assetHeader self InArchive).1) % U64_SIZE)) := by
  have hl := (serializeRawDataSize_isLoading assetHeader self InArchive).1
  rw [hload] at hl
  simp only [FAudioBank.Serialize, hl, gt_iff_lt, hpos, decide_True, Bool.and_self, if_true]
  rfl

/-- C19: for a loading archive, `Serialize` returns with `rawDataSize` read from the length
field. When it is not zero, `offsetToRawData` is the cursor right after the length field,
`pathToArchive` is the archive's path, and the archive ends at
`offsetToRawData + rawDataSize` (computed in `uint64`) by one `Tell` and one `Seek`,
without a read of the payload; when it is zero, `offsetToRawData` and `pathToArchive`
keep their values and the archive stays as it was right after the length field. The
length field is the 8 bytes after the asset framing when the stream holds them. -/
theorem Serialize_loading (WITH_EDITOR : Bool) (assetHeader : List Nat) (self : FAudioBank)
    (InArchive : FArchiveStream) (hload : InArchive.isLoading = true) :
    ∃ self1 a1, self.Serialize WITH_EDITOR assetHeader InArchive = some (self1, a1) ∧
      self1.rawDataSize = fromLE (serializeRawDataSize assetHeader self InArchive).1 ∧
      ((FAsset_Serialize assetHeader InArchive).pos + 8
          ≤ (FAsset_Serialize assetHeader InArchive).bytes.length →
        (serializeRawDataSize assetHeader self InArchive).2.pos
            = (FAsset_Serialize assetHeader InArchive).pos + 8 ∧
          self1.rawDataSize = fromLE (((FAsset_Serialize assetHeader InArchive).bytes.drop
            (FAsset_Serialize assetHeader InArchive).pos).take 8)) ∧
      (self1.rawDataSize ≠ 0 →
        self1.offsetToRawData = (serializeRawDataSize assetHeader self InArchive).2.pos ∧
          self1.pathToArchive = InArchive.path ∧
          a1.pos = (self1.offsetToRawData + self1.rawDataSize) % U64_SIZE ∧
          (self1.offsetToRawData + self1.rawDataSize < U64_SIZE →
            a1.pos = self1.offsetToRawData + self1.rawDataSize) ∧
          a1.calls = (serializeRawDataSize assetHeader self InArchive).2.calls
            ++ [ArchiveCall.Tell, ArchiveCall.Seek a1.pos] ∧
          a1.bytes = InArchive.bytes) ∧
      (self1.rawDataSize = 0 →
        self1.offsetToRawData = self.offsetToRawData ∧
          self1.pathToArchive = self.pathToArchive ∧
          a1 = (serializeRawDataSize assetHeader self InArchive).2) := by
  have hl := serializeRawDataSize_isLoading assetHeader self InArchive
  rw [hload] at hl
  have hfield : (FAsset_Serialize assetHeader InArchive).pos + 8
        ≤ (FAsset_Serialize assetHeader InArchive).bytes.length →
      (serializeRawDataSize assetHeader self InArchive).2.pos
          = (FAsset_Serialize assetHeader InArchive).pos + 8 ∧
        fromLE (serializeRawDataSize assetHeader self InArchive).1
          = fromLE (((FAsset_Serialize assetHeader InArchive).bytes.drop
            (FAsset_Serialize assetHeader InArchive).pos).take 8) := by
    intro h8
    have hl1 : (FAsset_Serialize assetHeader InArchive).isLoading = true := by
      unfold FAsset_Serialize
      rw [(FArchiveStream.Serialize_isLoading InArchive assetHeader assetHeader.length).1, hload]
    have hlen : (((FAsset_Serialize assetHeader InArchive).bytes.drop
        (FAsset_Serialize assetHeader InArchive).pos).take 8).length = 8 := by
      rw [List.length_take, List.length_drop]
      omega
    have hdrop : (toLE64 self.rawDataSize).drop 8 = [] := by
      simp [toLE64]
    simp only [serializeRawDataSize, FArchiveStream.shiftU64, FArchiveStream.Serialize, hl1, if_true, hlen, hdrop,
      List.append_nil, and_self]
  have hbytes : (serializeRawDataSize assetHeader self InArchive).2.bytes = InArchive.bytes := by
    simp [serializeRawDataSize, FArchiveStream.shiftU64, FAsset_Serialize, FArchiveStream.Serialize, hload]
  by_cases hn : fromLE (serializeRawDataSize assetHeader self InArchive).1 = 0
  · refine ⟨{ self with rawDataSize := fromLE (serializeRawDataSize assetHeader self InArchive).1 },
      (serializeRawDataSize assetHeader self InArchive).2, ?_, rfl, ?_, ?_, ?_⟩
    · simp [FAudioBank.Serialize, hn]
    · intro h8
      exact hfield h8
    · intro h
      exact absurd hn h
    · intro _
      exact ⟨rfl, rfl, rfl⟩
  · have hpos : 0 < fromLE (serializeRawDataSize assetHeader self InArchive).1 := by omega
    rw [Serialize_of_loading_pos WITH_EDITOR assetHeader self InArchive hload hpos]
    refine ⟨_, _, rfl, rfl, hfield, ?_, ?_⟩
    · intro _
      refine ⟨rfl, hl.2, rfl, ?_, ?_, hbytes⟩
      · intro hlt
        exact Nat.mod_eq_of_lt hlt
      · simp [FArchiveStream.Seek, FArchiveStream.Tell]
    · intro h
      exact absurd h hn

theorem Serialize_loading_witness :
    loadingArchive.isLoading = true ∧
    ∃ self1 a1, FAudioBank.new.Serialize false [7, 7] loadingArchive = some (self1, a1) ∧
      self1.rawDataSize = 3 ∧ self1.offsetToRawData = 10 ∧ self1.pathToArchive = "sounds.pak" ∧
      a1.pos = 13 ∧
      a1.calls = [ArchiveCall.Serialize 2, ArchiveCall.Serialize 8, ArchiveCall.Tell,
        ArchiveCall.Seek 13] :=
  have h := Serialize_loading false [7, 7] FAudioBank.new loadingArchive rfl
  ⟨rfl, by
    obtain ⟨self1, a1, hs, -, -, -, -⟩ := h
    refine ⟨self1, a1, hs, ?_⟩
    have hv : FAudioBank.new.Serialize false [7, 7] loadingArchive
        = some ({ pathToArchive := "sounds.pak", offsetToRawData := 10, rawDataSize := 3 },
            { path := "sounds.pak", isLoading := true,
              bytes := [7, 7, 3, 0, 0, 0, 0, 0, 0, 0, 10, 20, 30, 99], pos := 13,
              calls := [ArchiveCall.Serialize 2, ArchiveCall.Serialize 8, ArchiveCall.Tell,
                ArchiveCall.Seek 13] }) := by
      decide
    rw [hv] at hs
    simp only [Option.some.injEq, Prod.mk.injEq] at hs
    obtain ⟨h1, h2⟩ := hs
    subst h1
    subst h2
    exact ⟨rfl, rfl, rfl, rfl, rfl⟩⟩

theorem toLE64_length (n : Nat) : (toLE64 n).length = 8 := by
  simp [toLE64]

theorem FArchiveStream.Serialize_saving_at_end (a : FArchiveStream) (buffer : List Nat) (n : Nat)
    (h : a.isLoading = false) (hp : a.pos = a.bytes.length) (hn : buffer.length ≤ n) :
    a.Serialize buffer n =
      (buffer,
        { a with
          bytes := a.bytes ++ buffer,
          pos := a.bytes.length + buffer.length,
          calls := a.calls ++ [ArchiveCall.Serialize n] }) := by
  have ht : buffer.take n = buffer := List.take_of_length_le hn
  simp [FArchiveStream.Serialize, h, hp, ht]

theorem FArchiveStream.Serialize_loading_at (a : FArchiveStream) (buffer pre data post : List Nat)
    (h : a.isLoading = true) (hb : a.bytes = pre ++ (data ++ post)) (hp : a.pos = pre.length) :
    a.Serialize buffer data.length =
      (data ++ buffer.drop data.length,
        { a with
          pos := pre.length + data.length,
          calls := a.calls ++ [ArchiveCall.Serialize data.length] }) := by
  have hd : (a.bytes.drop pre.length).take data.length = data := by
    rw [hb, List.drop_left, List.take_left]
  simp only [FArchiveStream.Serialize, h, if_true, hp, hd]

theorem serializeRawDataSize_saving (assetHeader : List Nat) (self : FAudioBank)
    (out : FArchiveStream) (hsave : out.isLoading = false) (hend : out.pos = out.bytes.length) :
    serializeRawDataSize assetHeader self out =
      (toLE64 self.rawDataSize,
        { out with
          bytes := out.bytes ++ assetHeader ++ toLE64 self.rawDataSize,
          pos := out.bytes.length + assetHeader.length + 8,
          calls := out.calls ++ [ArchiveCall.Serialize assetHeader.length,
            ArchiveCall.Serialize 8] }) := by
  unfold serializeRawDataSize FArchiveStream.shiftU64 FAsset_Serialize
  rw [FArchiveStream.Serialize_saving_at_end out assetHeader assetHeader.length hsave hend
    (Nat.le_refl _)]
  have h8 := FArchiveStream.Serialize_saving_at_end
    { out with
      bytes := out.bytes ++ assetHeader,
      pos := out.bytes.length + assetHeader.length,
      calls := out.calls ++ [ArchiveCall.Serialize assetHeader.length] }
    (toLE64 self.rawDataSize) 8 hsave (by simp) (by rw [toLE64_length])
  rw [h8]
  simp [toLE64_length, Nat.add_assoc]

theorem serializeRawDataSize_loading (assetHeader : List Nat) (other : FAudioBank)
    (src : FArchiveStream) (pre post : List Nat) (n : Nat)
    (hload : src.isLoading = true)
    (hb : src.bytes = pre ++ (assetHeader ++ (toLE64 n ++ post))) (hp : src.pos = pre.length) :
    serializeRawDataSize assetHeader other src =
      (toLE64 n,
        { src with
          pos := pre.length + assetHeader.length + 8,
          calls := src.calls ++ [ArchiveCall.Serialize assetHeader.length,
            ArchiveCall.Serialize 8] }) := by
  unfold serializeRawDataSize FArchiveStream.shiftU64 FAsset_Serialize
  rw [FArchiveStream.Serialize_loading_at src assetHeader pre assetHeader (toLE64 n ++ post)
    hload hb hp]
  have h8 := FArchiveStream.Serialize_loading_at
    { src with
      pos := pre.length + assetHeader.length,
      calls := src.calls ++ [ArchiveCall.Serialize assetHeader.length] }
    (toLE64 other.rawDataSize) (pre ++ assetHeader) (toLE64 n) post hload
    (by simp [hb]) (by simp)
  rw [toLE64_length] at h8
  rw [h8]
  simp [toLE64_length, Nat.add_assoc]

theorem Serialize_of_zero (WITH_EDITOR : Bool) (assetHeader : List Nat)
    (self : FAudioBank) (InArchive : FArchiveStream)
    (hzero : fromLE (serializeRawDataSize assetHeader self InArchive).1 = 0) :
    self.Serialize WITH_EDITOR assetHeader InArchive =
      some
        ({ self with rawDataSize := fromLE (serializeRawDataSize assetHeader self InArchive).1 },
          (serializeRawDataSize assetHeader self InArchive).2) := by
  simp [FAudioBank.Serialize, hzero]

theorem Serialize_saving_value (assetHeader : List Nat) (self : FAudioBank)
    (out : FArchiveStream) (hsave : out.isLoading = false) (hend : out.pos = out.bytes.length)
    (hn : self.rawData.length = self.rawDataSize) (hlt : self.rawDataSize < U64_SIZE) :
    self.Serialize true assetHeader out =
      some (self,
        { out with
          bytes := out.bytes ++ assetHeader ++ toLE64 self.rawDataSize ++ self.rawData,
          pos := out.bytes.length + assetHeader.length + 8 + self.rawDataSize,
          calls := out.calls ++ [ArchiveCall.Serialize assetHeader.length,
            ArchiveCall.Serialize 8]
            ++ (if 0 < self.rawDataSize then [ArchiveCall.Serialize self.rawDataSize] else []) }) := by
  have hs := serializeRawDataSize_saving assetHeader self out hsave hend
  have hfrom := fromLE_toLE64 self.rawDataSize hlt
  obtain ⟨p, o, n, raw⟩ := self
  simp only at hn hlt hs hfrom ⊢
  unfold FAudioBank.Serialize
  simp only [hs, hfrom, hsave, Bool.false_and, Bool.true_and, Bool.false_eq_true, if_false,
    decide_eq_true_eq, gt_iff_lt]
  by_cases h0 : n = 0
  · subst h0
    have hraw : raw = [] := List.eq_nil_of_length_eq_zero hn
    subst hraw
    simp
  · have hpos : 0 < n := by omega
    have hw := FArchiveStream.Serialize_saving_at_end
      { out with
        bytes := out.bytes ++ assetHeader ++ toLE64 n,
        pos := out.bytes.length + assetHeader.length + 8,
        calls := out.calls ++ [ArchiveCall.Serialize assetHeader.length,
          ArchiveCall.Serialize 8] }
      raw n hsave (by simp only [List.length_append, toLE64_length]) (by omega)
    simp only at hw
    rw [hsave] at hw
    rw [if_pos hpos, if_pos (by omega), hw]
    simp [toLE64_length, hn, hpos]
    omega

/-- C20: in an editor build, a record that holds `n = rawDataSize` raw bytes is saved by
`Serialize` at the end of a saving archive as the asset framing, the 8 bytes of the length
field and, when `n > 0`, exactly the `n` raw bytes (the length field alone when `n = 0`).
Loading the saved stream from where the save began gives `rawDataSize = n`, moves the
cursor over exactly the bytes the save produced, and for `n > 0` the range
`[offsetToRawData, offsetToRawData + n)` of the stream holds the saved raw bytes. -/
theorem Serialize_save_then_load (WITH_EDITOR : Bool) (assetHeader : List Nat)
    (self other : FAudioBank) (out : FArchiveStream) (path : String)
    (hsave : out.isLoading = false) (hend : out.pos = out.bytes.length)
    (hn : self.rawData.length = self.rawDataSize)
    (hfit : out.bytes.length + assetHeader.length + 8 + self.rawDataSize < U64_SIZE) :
    ∃ self1 saved, self.Serialize true assetHeader out = some (self1, saved) ∧
      self1 = self ∧
      saved.bytes = out.bytes ++ assetHeader ++ toLE64 self.rawDataSize ++ self.rawData ∧
      (self.rawDataSize = 0 → saved.bytes = out.bytes ++ assetHeader ++ toLE64 0) ∧
      saved.pos = saved.bytes.length ∧
      ∃ loaded a1,
        other.Serialize WITH_EDITOR assetHeader
            { path := path, isLoading := true, bytes := saved.bytes, pos := out.pos }
          = some (loaded, a1) ∧
        loaded.rawDataSize = self.rawDataSize ∧
        a1.pos = saved.pos ∧
        a1.pos - out.pos = saved.bytes.length - out.bytes.length ∧
        (0 < self.rawDataSize →
          loaded.pathToArchive = path ∧
            loaded.offsetToRawData = out.pos + assetHeader.length + 8 ∧
            (saved.bytes.drop loaded.offsetToRawData).take self.rawDataSize = self.rawData) := by
  have hlt : self.rawDataSize < U64_SIZE := by omega
  rw [Serialize_saving_value assetHeader self out hsave hend hn hlt]
  refine ⟨_, _, rfl, rfl, rfl, ?_, ?_, ?_⟩
  · intro h0
    have hraw : self.rawData = [] := List.eq_nil_of_length_eq_zero (by omega)
    simp [hraw, h0]
  · simp [toLE64_length, hn]
    omega
  · have hfrom := fromLE_toLE64 self.rawDataSize hlt
    have hs := serializeRawDataSize_loading assetHeader other
      { path := path, isLoading := true,
        bytes := out.bytes ++ assetHeader ++ toLE64 self.rawDataSize ++ self.rawData,
        pos := out.pos }
      out.bytes self.rawData self.rawDataSize rfl (by simp) hend
    by_cases h0 : self.rawDataSize = 0
    · have hraw : self.rawData = [] := List.eq_nil_of_length_eq_zero (by omega)
      rw [Serialize_of_zero WITH_EDITOR assetHeader other _ (by rw [hs, hfrom]; exact h0), hs,
        hfrom]
      refine ⟨_, _, rfl, rfl, ?_, ?_, ?_⟩
      · simp [h0]
      · simp [toLE64_length, hraw, hend]
        omega
      · intro hpos
        omega
    · have hpos : 0 < self.rawDataSize := by omega
      have hpos2 : 0 < fromLE (serializeRawDataSize assetHeader other
          { path := path, isLoading := true,
            bytes := out.bytes ++ assetHeader ++ toLE64 self.rawDataSize ++ self.rawData,
            pos := out.pos }).1 := by
        rw [hs, hfrom]
        exact hpos
      rw [Serialize_of_loading_pos WITH_EDITOR assetHeader other _ rfl hpos2, hs, hfrom]
      refine ⟨_, _, rfl, rfl, ?_, ?_, ?_⟩
      · simp only [FArchiveStream.Seek, FArchiveStream.Tell]
        exact Nat.mod_eq_of_lt hfit
      · simp only [FArchiveStream.Seek, FArchiveStream.Tell]
        rw [Nat.mod_eq_of_lt hfit]
        simp [toLE64_length, hn, hend]
        omega
      · intro _
        refine ⟨rfl, by simp [hend], ?_⟩
        have hb : out.bytes ++ assetHeader ++ toLE64 self.rawDataSize ++ self.rawData
            = (out.bytes ++ assetHeader ++ toLE64 self.rawDataSize) ++ (self.rawData ++ []) := by
          simp
        have hl : out.bytes.length + assetHeader.length + 8
            = (out.bytes ++ assetHeader ++ toLE64 self.rawDataSize).length := by
          simp only [List.length_append, toLE64_length]
        show (List.drop (out.bytes.length + assetHeader.length + 8) _).take _ = _
        rw [hb, hl, List.drop_left, ← hn, List.take_left]

theorem Serialize_save_then_load_witness :
    savingArchive.isLoading = false ∧ savingArchive.pos = savingArchive.bytes.length ∧
    editedBank.rawData.length = editedBank.rawDataSize ∧
    ∃ self1 saved, editedBank.Serialize true [7, 7] savingArchive = some (self1, saved) ∧
      self1 = editedBank ∧
      saved.bytes = savingArchive.bytes ++ [7, 7] ++ toLE64 editedBank.rawDataSize
        ++ editedBank.rawData ∧
      (editedBank.rawDataSize = 0 → saved.bytes = savingArchive.bytes ++ [7, 7] ++ toLE64 0) ∧
      saved.pos = saved.bytes.length ∧
      ∃ loaded a1,
        FAudioBank.new.Serialize true [7, 7]
            { path := "out.pak", isLoading := true, bytes := saved.bytes,
              pos := savingArchive.pos }
          = some (loaded, a1) ∧
        loaded.rawDataSize = editedBank.rawDataSize ∧
        a1.pos = saved.pos ∧
        a1.pos - savingArchive.pos = saved.bytes.length - savingArchive.bytes.length ∧
        (0 < editedBank.rawDataSize →
          loaded.pathToArchive = "out.pak" ∧
            loaded.offsetToRawData = savingArchive.pos + [7, 7].length + 8 ∧
            (saved.bytes.drop loaded.offsetToRawData).take editedBank.rawDataSize
              = editedBank.rawData) :=
  ⟨rfl, rfl, rfl,
    Serialize_save_then_load true [7, 7] editedBank FAudioBank.new savingArchive "out.pak"
      rfl rfl rfl (by decide)⟩

/-! ## Archive_ReadOgg: the size of the read -/

theorem Archive_ReadOgg_calls (s1 s2 : Nat) (d : FArchiveOGGRawData) :
    (Archive_ReadOgg s1 s2 d).2.archive.calls =
      d.archive.calls ++ [ArchiveCall.Tell]
        ++ (if 0 < (Archive_ReadOgg s1 s2 d).1
            then [ArchiveCall.Serialize (Archive_ReadOgg s1 s2 d).1] else []) := by
  simp only [Archive_ReadOgg, FArchive.Tell, FArchive.Serialize]
  split <;> split <;> simp_all

/-- When `currentOffset + size` does not wrap around, `Archive_ReadOgg` returns the smaller
of the requested size and of what is left of the range; it calls `Serialize` with that size
when it is not 0, and only `Tell`, leaving the position as it is, when it is 0. -/
theorem Archive_ReadOgg_min_without_wrap (s1 s2 : Nat) (d : FArchiveOGGRawData)
    (hpe : d.archive.pos ≤ d.endOffset) (he : d.endOffset < U64_SIZE)
    (hsum : d.archive.pos + (s1 * s2) % U64_SIZE < U64_SIZE) :
    (Archive_ReadOgg s1 s2 d).1 = min ((s1 * s2) % U64_SIZE) (d.endOffset - d.archive.pos) ∧
      (0 < (Archive_ReadOgg s1 s2 d).1 →
        (Archive_ReadOgg s1 s2 d).2.archive.calls = d.archive.calls
          ++ [ArchiveCall.Tell, ArchiveCall.Serialize (Archive_ReadOgg s1 s2 d).1]) ∧
      ((Archive_ReadOgg s1 s2 d).1 = 0 →
        (Archive_ReadOgg s1 s2 d).2.archive.calls = d.archive.calls ++ [ArchiveCall.Tell] ∧
          (Archive_ReadOgg s1 s2 d).2.archive.pos = d.archive.pos) := by
  have hfst := Archive_ReadOgg_fst s1 s2 d
  have hmod : (d.archive.pos + (s1 * s2) % U64_SIZE) % U64_SIZE
      = d.archive.pos + (s1 * s2) % U64_SIZE := Nat.mod_eq_of_lt hsum
  rw [hmod] at hfst
  have hu : (toU64 ((d.endOffset : Int) - (d.archive.pos : Int)) : Int)
      = (d.endOffset : Int) - (d.archive.pos : Int) := by
    apply toU64_of_nonneg_of_lt
    · omega
    · unfold U64_SIZE at he; omega
  refine ⟨?_, ?_, ?_⟩
  · split at hfst <;> omega
  · intro hpos
    rw [Archive_ReadOgg_calls, if_pos hpos]
    simp
  · intro hzero
    constructor
    · rw [Archive_ReadOgg_calls, if_neg (by omega)]
      simp
    · rw [Archive_ReadOgg_pos, hzero]
      rfl

/-- C21, evaluated at the range `[0, 10]` with the archive at position 1 and a request of
`n = 2 ^ 64 - 1` bytes: `min(n, e - p)` is 9, but `currentOffset + size` wraps around, the
size is not trimmed and `Archive_ReadOgg` asks the archive for `2 ^ 64 - 1` bytes and
returns `2 ^ 64 - 1`. -/
theorem Archive_ReadOgg_wrap_not_min :
    min (18446744073709551615 * 1 % U64_SIZE)
        (readWrapInput.endOffset - readWrapInput.archive.pos) = 9 ∧
    (Archive_ReadOgg 18446744073709551615 1 readWrapInput).1 = 18446744073709551615 ∧
    (Archive_ReadOgg 18446744073709551615 1 readWrapInput).2.archive.calls
      = [ArchiveCall.Tell, ArchiveCall.Serialize 18446744073709551615] := by
  simp [Archive_ReadOgg, readWrapInput, FArchive.Tell, FArchive.Serialize, U64_SIZE, toU64]

/-- On an empty range with the archive at its begin, a read whose `currentOffset + size`
does not wrap around returns 0 and makes no `Serialize` call, and a seek in one of the
three modes leaves the archive at the begin of the range. -/
theorem Archive_empty_range (s1 s2 : Nat) (d : FArchiveOGGRawData) (InTo InType : Int)
    (hempty : d.endOffset = d.beginOffset) (hpos : d.archive.pos = d.beginOffset)
    (he : d.endOffset < U64_SIZE)
    (hsum : d.archive.pos + (s1 * s2) % U64_SIZE < U64_SIZE)
    (hmode : InType = SEEK_CUR ∨ InType = SEEK_END ∨ InType = SEEK_SET) :
    (Archive_ReadOgg s1 s2 d).1 = 0 ∧
      (Archive_ReadOgg s1 s2 d).2.archive.calls = d.archive.calls ++ [ArchiveCall.Tell] ∧
      (Archive_SeekOgg d InTo InType).2.archive.pos = d.beginOffset := by
  have h := Archive_ReadOgg_min_without_wrap s1 s2 d (by omega) he hsum
  have h0 : (Archive_ReadOgg s1 s2 d).1 = 0 := by
    rw [h.1]
    omega
  obtain ⟨c, hc⟩ := seekCandidate_isSome_of_mode d d.archive.pos InTo InType hmode
  have hs := seekClamp_mem_range d c (by omega)
  rw [← (Archive_SeekOgg_of_candidate d InTo InType c hc).2.1] at hs
  exact ⟨h0, (h.2.2 h0).1, by omega⟩

theorem strError_eq_not_found_iff (error : Int) : strError error = "not found" ↔ error = OV_FALSE := by
  constructor
  · intro h
    by_contra hne
    unfold strError at h
    rw [if_neg hne] at h
    split_ifs at h <;> exact absurd h (by decide)
  · intro h
    rw [h]
    rfl

theorem OpenBank_failed_warning (DO_CHECK : Bool) (LONG_BITS : Nat)
    (GFileSystem : String → Option FArchive) (codec : OggVorbisCodec) (self : FAudioBank)
    (OutBankInfo : FAudioBankInfo) (w : World) (archive : FArchive)
    (hne : self.rawDataSize ≠ 0)
    (hoff : DO_CHECK = true → self.offsetToRawData ≠ OFFSET_UNSET)
    (hfs : GFileSystem self.pathToArchive = some archive)
    (herr : (runOvOpen LONG_BITS codec.ov_open_callbacks (bindReader self archive)).1 < 0) :
    ∃ r, OpenBank DO_CHECK LONG_BITS GFileSystem codec self OutBankInfo w = Except.ok r ∧
      r.handle = none ∧
      r.world.readersCreated = w.readersCreated + 1 ∧
      r.world.warnings = w.warnings ++ ["Failed loading bank: " ++ strError
        (runOvOpen LONG_BITS codec.ov_open_callbacks (bindReader self archive)).1] := by
  rw [OpenBank_of_not_empty DO_CHECK LONG_BITS GFileSystem codec self OutBankInfo w hne hoff, hfs]
  dsimp only
  rw [if_pos herr]
  exact ⟨_, rfl, rfl, rfl, rfl⟩

/-- C23 fails on a non-empty bank whose reader is created and whose `ov_open_callbacks`
returns `OV_FALSE`: `OpenBank` reports "not found" although the archive reader could be
created. -/
theorem OpenBank_not_found_with_reader :
    ∃ r, OpenBank true 32 anyReader falseCodec corruptBank blankInfo {} = Except.ok r ∧
      r.handle = none ∧
      r.world.readersCreated = 1 ∧
      r.world.warnings = ["Failed loading bank: not found"] := by
  obtain ⟨r, hr, hh, hc, hw⟩ :=
    OpenBank_failed_warning true 32 anyReader falseCodec corruptBank blankInfo {} { pos := 0 }
      (by decide) (fun _ => by decide) rfl (by decide)
  exact ⟨r, hr, hh, hc, hw⟩

/-- C23 as amended: `OpenBank` gives each of the six failure codes its own message,
"not found" for `OV_FALSE` (the code it sets when the reader is not created) and one each
for `OV_EREAD`, `OV_ENOTVORBIS`, `OV_EVERSION`, `OV_EBADHEADER` and `OV_EFAULT`, the six
messages being pairwise distinct; for a non-empty bank it reports "not found" when the
reader could not be created, and with a reader it reports the message of the negative
result of `ov_open_callbacks`, which is "not found" exactly when that result is
`OV_FALSE` itself. -/
theorem OpenBank_failure_kinds (DO_CHECK : Bool) (LONG_BITS : Nat)
    (GFileSystem : String → Option FArchive) (codec : OggVorbisCodec) (self : FAudioBank)
    (OutBankInfo : FAudioBankInfo) (w : World)
    (hne : self.rawDataSize ≠ 0)
    (hoff : DO_CHECK = true → self.offsetToRawData ≠ OFFSET_UNSET) :
    (strError OV_FALSE = "not found" ∧
      strError OV_EREAD = "a read from media returned an error" ∧
      strError OV_ENOTVORBIS = "bitstream does not contain any Vorbis data" ∧
      strError OV_EVERSION = "vorbis version mismatch" ∧
      strError OV_EBADHEADER = "invalid Vorbis bitstream header" ∧
      strError OV_EFAULT = "internal logic fault; indicates a bug or heap/stack corruption") ∧
    [strError OV_FALSE, strError OV_EREAD, strError OV_ENOTVORBIS, strError OV_EVERSION,
      strError OV_EBADHEADER, strError OV_EFAULT].Nodup ∧
    (GFileSystem self.pathToArchive = none →
      ∃ r, OpenBank DO_CHECK LONG_BITS GFileSystem codec self OutBankInfo w = Except.ok r ∧
        r.handle = none ∧
        r.world.warnings = w.warnings ++ ["Failed loading bank: " ++ strError OV_FALSE]) ∧
    (∀ archive, GFileSystem self.pathToArchive = some archive →
      (runOvOpen LONG_BITS codec.ov_open_callbacks (bindReader self archive)).1 < 0 →
      (∃ r, OpenBank DO_CHECK LONG_BITS GFileSystem codec self OutBankInfo w = Except.ok r ∧
        r.handle = none ∧
        r.world.warnings = w.warnings ++ ["Failed loading bank: " ++ strError
          (runOvOpen LONG_BITS codec.ov_open_callbacks (bindReader self archive)).1]) ∧
      (strError (runOvOpen LONG_BITS codec.ov_open_callbacks (bindReader self archive)).1
          = "not found" ↔
        (runOvOpen LONG_BITS codec.ov_open_callbacks (bindReader self archive)).1
          = OV_FALSE)) := by
  refine ⟨by decide, by decide, ?_, ?_⟩
  · intro hfs
    rw [OpenBank_of_not_empty DO_CHECK LONG_BITS GFileSystem codec self OutBankInfo w hne hoff,
      hfs]
    exact ⟨_, rfl, rfl, rfl⟩
  · intro archive hfs herr
    obtain ⟨r, hr, hh, -, hw⟩ :=
      OpenBank_failed_warning DO_CHECK LONG_BITS GFileSystem codec self OutBankInfo w archive
        hne hoff hfs herr
    exact ⟨⟨r, hr, hh, hw⟩, strError_eq_not_found_iff _⟩

theorem OpenBank_failure_kinds_witness :
    corruptBank.rawDataSize ≠ 0 ∧
    [strError OV_FALSE, strError OV_EREAD, strError OV_ENOTVORBIS, strError OV_EVERSION,
      strError OV_EBADHEADER, strError OV_EFAULT].Nodup ∧
    (∀ archive, anyReader corruptBank.pathToArchive = some archive →
      (runOvOpen 32 rejectingCodec.ov_open_callbacks (bindReader corruptBank archive)).1 < 0 →
      (∃ r, OpenBank true 32 anyReader rejectingCodec corruptBank blankInfo {} = Except.ok r ∧
        r.handle = none ∧
        r.world.warnings = ({} : World).warnings ++ ["Failed loading bank: " ++ strError
          (runOvOpen 32 rejectingCodec.ov_open_callbacks (bindReader corruptBank archive)).1]) ∧
      (strError (runOvOpen 32 rejectingCodec.ov_open_callbacks
          (bindReader corruptBank archive)).1 = "not found" ↔
        (runOvOpen 32 rejectingCodec.ov_open_callbacks (bindReader corruptBank archive)).1
          = OV_FALSE)) :=
  have h := OpenBank_failure_kinds true 32 anyReader rejectingCodec corruptBank blankInfo {}
    (by decide) (fun _ => by decide)
  ⟨by decide, h.2.1, h.2.2.2⟩

/-! ## ReadBankPCM: the sample offset -/

theorem toU64_toU64_add (a b : Int) : toU64 ((toU64 a : Int) + b) = toU64 (a + b) := by
  unfold toU64
  omega

theorem toU64_natCast_of_lt (n : Nat) (h : n < U64_SIZE) : toU64 (n : Int) = n := by
  unfold U64_SIZE at h
  unfold toU64
  omega

theorem positiveSum_nonneg (results : List Int) : 0 ≤ positiveSum results := by
  unfold positiveSum
  apply List.sum_nonneg
  intro y hy
  simp only [List.mem_filter, decide_eq_true_eq] at hy
  omega

theorem positiveSum_append (xs ys : List Int) :
    positiveSum (xs ++ ys) = positiveSum xs + positiveSum ys := by
  simp [positiveSum, List.filter_append, List.sum_append]

theorem ReadBankPCM_loop_sampleOffset {σ : Type} (dec : OvDecoder σ) (InMaxSize : Nat)
    (hmax : InMaxSize < U64_SIZE) :
    ∀ (fuel : Nat) (st r : ReadBankPCMState σ), st.audioBankOgg.sampleOffset < U64_SIZE →
      ReadBankPCM_loop dec InMaxSize fuel st = some r →
      ∃ added, r.ovReadResults = st.ovReadResults ++ added ∧
        r.audioBankOgg.sampleOffset
          = toU64 ((st.audioBankOgg.sampleOffset : Int) + positiveSum added) := by
  intro fuel
  induction fuel with
  | zero =>
    intro st r hoff h
    by_cases hlt : st.size < InMaxSize
    · simp [ReadBankPCM_loop, hlt] at h
    · rw [ReadBankPCM_loop_of_done dec InMaxSize 0 st hlt] at h
      simp only [Option.some.injEq] at h
      subst h
      exact ⟨[], by simp, by simp [positiveSum, toU64_natCast_of_lt _ hoff]⟩
  | succ fuel ih =>
    intro st r hoff h
    by_cases hlt : st.size < InMaxSize
    · by_cases hpos : 0 < (dec.ov_read st.decoder (toSigned INT_BITS ((InMaxSize - st.size : Nat) : Int))).1
      · rw [ReadBankPCM_loop_succ_of_pos dec InMaxSize fuel st hlt hmax hpos] at h
        obtain ⟨added, hres, hso⟩ := ih _ r (by exact toU64_lt _) h
        refine ⟨(dec.ov_read st.decoder (toSigned INT_BITS ((InMaxSize - st.size : Nat) : Int))).1 :: added, ?_, ?_⟩
        · rw [hres]
          simp
        · rw [hso]
          simp only
          rw [toU64_toU64_add]
          have hp : positiveSum ((dec.ov_read st.decoder (toSigned INT_BITS ((InMaxSize - st.size : Nat) : Int))).1 :: added)
              = (dec.ov_read st.decoder (toSigned INT_BITS ((InMaxSize - st.size : Nat) : Int))).1 + positiveSum added := by
            simp [positiveSum, List.filter_cons, hpos]
          rw [hp, Int.add_assoc]
      · rw [ReadBankPCM_loop_succ_of_not_pos dec InMaxSize fuel st hlt hmax hpos] at h
        simp only [Option.some.injEq] at h
        subst h
        refine ⟨[(dec.ov_read st.decoder (toSigned INT_BITS ((InMaxSize - st.size : Nat) : Int))).1], rfl, ?_⟩
        have hp : positiveSum [(dec.ov_read st.decoder (toSigned INT_BITS ((InMaxSize - st.size : Nat) : Int))).1] = 0 := by
          simp [positiveSum, List.filter_cons, hpos]
        rw [hp]
        simp [toU64_natCast_of_lt _ hoff]
    · rw [ReadBankPCM_loop_of_done dec InMaxSize _ st hlt] at h
      simp only [Option.some.injEq] at h
      subst h
      exact ⟨[], by simp, by simp [positiveSum, toU64_natCast_of_lt _ hoff]⟩

/-- C24 fails on a session whose sample offset is `2 ^ 64 - 1`: a call of `ReadBankPCM`
with `InMaxSize = 2` in which the codec yields 2 bytes returns 2 and leaves the sample
offset at 1, below its value before the call. -/
theorem ReadBankPCM_sampleOffset_wraps :
    (ReadBankPCM (chunkDecoder 3) 2 sessionAtLastOffset 10 0 2).map
        (fun r => (r.size, r.ovReadResults, r.audioBankOgg.sampleOffset))
      = some (2, [2], 1) ∧
    (1 : Nat) < sessionAtLastOffset.sampleOffset := by
  constructor
  · simp [ReadBankPCM, ReadBankPCM_loop, ReadBankPCM_body, chunkDecoder, sessionAtLastOffset,
      stereoSession, U64_SIZE, toU64, toSigned, INT_BITS]
  · decide

/-- C24 as amended: after a call of `ReadBankPCM` the session's sample offset is its value
before the call plus the sum of the positive amounts the codec yielded during the call,
taken modulo `2 ^ 64`; when that sum stays below `2 ^ 64` the offset is exactly the value
before plus the amounts and is not decreased. This holds whatever the call returns, also
when it under-runs and returns 0. -/
theorem ReadBankPCM_sampleOffset {σ : Type} (dec : OvDecoder σ) (fuel : Nat)
    (audioBankOgg : FAudioBankOGG) (decoder : σ) (InSamples : Int) (InMaxSize : Nat)
    (r : ReadBankPCMState σ)
    (hmax : InMaxSize < U64_SIZE) (hoff : audioBankOgg.sampleOffset < U64_SIZE)
    (h : ReadBankPCM dec fuel audioBankOgg decoder InSamples InMaxSize = some r) :
    r.audioBankOgg.sampleOffset
        = toU64 ((audioBankOgg.sampleOffset : Int) + positiveSum r.ovReadResults) ∧
      ((audioBankOgg.sampleOffset : Int) + positiveSum r.ovReadResults < (U64_SIZE : Int) →
        (r.audioBankOgg.sampleOffset : Int)
            = (audioBankOgg.sampleOffset : Int) + positiveSum r.ovReadResults ∧
          audioBankOgg.sampleOffset ≤ r.audioBankOgg.sampleOffset) := by
  obtain ⟨added, hres, hso⟩ := ReadBankPCM_loop_sampleOffset dec InMaxSize hmax fuel _ r hoff h
  simp only [List.nil_append] at hres
  have hso2 : r.audioBankOgg.sampleOffset
      = toU64 ((audioBankOgg.sampleOffset : Int) + positiveSum added) := hso
  rw [hres, hso2]
  refine ⟨rfl, ?_⟩
  intro hfit
  have hnn := positiveSum_nonneg added
  have hu := toU64_of_nonneg_of_lt ((audioBankOgg.sampleOffset : Int) + positiveSum added)
    (by omega) (by unfold U64_SIZE at hfit; simpa using hfit)
  constructor
  · exact hu
  · omega

theorem ReadBankPCM_sampleOffset_witness :
    (4 : Nat) < U64_SIZE ∧ stereoSession.sampleOffset < U64_SIZE ∧
    ∃ r, ReadBankPCM (chunkDecoder 3) 4 stereoSession 2 0 4 = some r ∧
      r.size = 0 ∧ r.ovReadResults = [2, 0] ∧
      r.audioBankOgg.sampleOffset
        = toU64 ((stereoSession.sampleOffset : Int) + positiveSum r.ovReadResults) ∧
      ((stereoSession.sampleOffset : Int) + positiveSum r.ovReadResults < (U64_SIZE : Int) →
        (r.audioBankOgg.sampleOffset : Int)
            = (stereoSession.sampleOffset : Int) + positiveSum r.ovReadResults ∧
          stereoSession.sampleOffset ≤ r.audioBankOgg.sampleOffset) :=
  ⟨by decide, by decide,
    (Option.isSome_iff_exists.mp
      (show (ReadBankPCM (chunkDecoder 3) 4 stereoSession 2 0 4).isSome = true from
        by decide)).elim
      (fun r h =>
        ⟨r, h,
          by
            have hv : (ReadBankPCM (chunkDecoder 3) 4 stereoSession 2 0 4).map
                (fun r => (r.size, r.ovReadResults)) = some (0, [2, 0]) := by decide
            rw [h] at hv
            simp only [Option.map_some', Option.some.injEq, Prod.mk.injEq] at hv
            exact hv.1,
          by
            have hv : (ReadBankPCM (chunkDecoder 3) 4 stereoSession 2 0 4).map
                (fun r => (r.size, r.ovReadResults)) = some (0, [2, 0]) := by decide
            rw [h] at hv
            simp only [Option.map_some', Option.some.injEq, Prod.mk.injEq] at hv
            exact hv.2,
          ReadBankPCM_sampleOffset (chunkDecoder 3) 4 stereoSession 2 0 4 r (by decide)
            (by decide) h⟩)⟩

/-! ## SeekBankPCM: the frame index -/

theorem SeekBankPCM_of_channels {σ : Type} (dec : OvDecoder σ) (audioBankOgg : FAudioBankOGG)
    (decoder : σ) (k c : Nat) (hc : 1 ≤ c)
    (hch : audioBankOgg.info.numChannels = (c : Int)) :
    ∃ r, SeekBankPCM dec audioBankOgg decoder k = some r ∧
      r.ovPcmSeekCalls = [toSigned OGG_INT64_BITS ((k / c : Nat) : Int)] ∧
      r.decoder = (dec.ov_pcm_seek decoder (toSigned OGG_INT64_BITS ((k / c : Nat) : Int))).2 ∧
      r.audioBankOgg.sampleOffset = k := by
  have hne : audioBankOgg.info.numChannels ≠ 0 := by
    rw [hch]
    omega
  have hdiv : (k : Int) / audioBankOgg.info.numChannels = ((k / c : Nat) : Int) := by
    rw [hch]
    norm_cast
  have hrun : SeekBankPCM dec audioBankOgg decoder k
      = some
          { audioBankOgg := { audioBankOgg with sampleOffset := k },
            decoder :=
              (dec.ov_pcm_seek decoder (toSigned OGG_INT64_BITS ((k / c : Nat) : Int))).2,
            ovPcmSeekCalls := [toSigned OGG_INT64_BITS ((k / c : Nat) : Int)] } := by
    simp only [SeekBankPCM, if_neg hne, hdiv]
  rw [hrun]
  exact ⟨_, rfl, rfl, rfl, rfl⟩

theorem div_lt_of_two_channels (k c : Nat) (hc : 2 ≤ c) (hk : k < U64_SIZE) :
    k / c < 2 ^ 63 := by
  unfold U64_SIZE at hk
  have h : k / c ≤ k / 2 := Nat.div_le_div_left hc (by decide)
  omega

/-- C25 fails on a mono session (`c = 1`) for the offset `k = 2 ^ 64 - 1`: the quotient
`k / c = 2 ^ 64 - 1` does not fit the `ogg_int64_t` parameter of `ov_pcm_seek`, and
`SeekBankPCM` asks the codec for the frame -1. -/
theorem SeekBankPCM_frame_index_negative :
    monoSession.info.numChannels = 1 ∧
    (18446744073709551615 : Nat) < U64_SIZE ∧
    (18446744073709551615 : Nat) / 1 = 18446744073709551615 ∧
    (SeekBankPCM (chunkDecoder 3) monoSession 10 18446744073709551615).map
        (fun r => (r.ovPcmSeekCalls, r.audioBankOgg.sampleOffset))
      = some ([-1], 18446744073709551615) := by
  refine ⟨rfl, ?_, by norm_num, ?_⟩
  · unfold U64_SIZE
    omega
  · simp [SeekBankPCM, chunkDecoder, monoSession, toSigned, OGG_INT64_BITS]

/-- C25 as amended: for a session whose recorded channel count is `c ≥ 1` and every offset
`k`, `SeekBankPCM` issues exactly one `ov_pcm_seek`, to the frame index `k / c` rounded
down and converted to the signed 64-bit parameter of `ov_pcm_seek`: it is `k / c` itself
whenever `k / c < 2 ^ 63`, so for every `uint64` offset when `c ≥ 2`; and a session
returned by `OpenBank` for a stream with `c ≥ 1` channels records `numChannels = c`, so
that `SeekBankPCM` on it never divides by zero. -/
theorem SeekBankPCM_frame_index {σ : Type} (DO_CHECK : Bool) (LONG_BITS : Nat)
    (GFileSystem : String → Option FArchive) (codec : OggVorbisCodec) (self : FAudioBank)
    (OutBankInfo : FAudioBankInfo) (w : World) (archive : FArchive) (c : Nat) (R : Int)
    (dec : OvDecoder σ)
    (hc : 1 ≤ c)
    (hne : self.rawDataSize ≠ 0)
    (hoff : DO_CHECK = true → self.offsetToRawData ≠ OFFSET_UNSET)
    (hfs : GFileSystem self.pathToArchive = some archive)
    (hopen : 0 ≤ (runOvOpen LONG_BITS codec.ov_open_callbacks (bindReader self archive)).1)
    (hvi : codec.ov_info = some { channels := (c : Int), rate := R }) :
    (∀ (audioBankOgg : FAudioBankOGG) (decoder : σ) (k : Nat),
      audioBankOgg.info.numChannels = (c : Int) →
      ∃ r, SeekBankPCM dec audioBankOgg decoder k = some r ∧
        r.ovPcmSeekCalls = [toSigned OGG_INT64_BITS ((k / c : Nat) : Int)] ∧
        r.decoder
          = (dec.ov_pcm_seek decoder (toSigned OGG_INT64_BITS ((k / c : Nat) : Int))).2 ∧
        (k / c < 2 ^ 63 →
          r.ovPcmSeekCalls = [((k / c : Nat) : Int)] ∧
          r.decoder = (dec.ov_pcm_seek decoder ((k / c : Nat) : Int)).2) ∧
        (2 ≤ c → k < U64_SIZE → r.ovPcmSeekCalls = [((k / c : Nat) : Int)])) ∧
    ∃ r h, OpenBank DO_CHECK LONG_BITS GFileSystem codec self OutBankInfo w = Except.ok r ∧
      r.handle = some h ∧
      h.info.numChannels = (c : Int) ∧
      ∀ (decoder : σ) (k : Nat),
        ∃ s, SeekBankPCM dec h decoder k = some s ∧
          s.ovPcmSeekCalls = [toSigned OGG_INT64_BITS ((k / c : Nat) : Int)] ∧
          (k / c < 2 ^ 63 → s.ovPcmSeekCalls = [((k / c : Nat) : Int)]) := by
  have hfit : ∀ k : Nat, k / c < 2 ^ 63 →
      toSigned OGG_INT64_BITS ((k / c : Nat) : Int) = ((k / c : Nat) : Int) := by
    intro k hk
    exact toSigned_ogg_of_lt _ (Int.natCast_nonneg _) (by exact_mod_cast hk)
  constructor
  · intro audioBankOgg decoder k hch
    obtain ⟨r, hr, hcalls, hdec, -⟩ := SeekBankPCM_of_channels dec audioBankOgg decoder k c hc hch
    refine ⟨r, hr, hcalls, hdec, ?_, ?_⟩
    · intro hk
      rw [hcalls, hdec, hfit k hk]
      exact ⟨rfl, rfl⟩
    · intro hc2 hk
      rw [hcalls, hfit k (div_lt_of_two_channels k c hc2 hk)]
  · obtain ⟨r, h, hr, hh, hinfo, -, -, hout, -⟩ :=
      OpenBank_of_opened DO_CHECK LONG_BITS GFileSystem codec self OutBankInfo w archive _
        hne hoff hfs hopen hvi
    have hch : h.info.numChannels = (c : Int) := by rw [hinfo, hout]
    refine ⟨r, h, hr, hh, hch, ?_⟩
    intro decoder k
    obtain ⟨s, hs, hcalls, -, -⟩ := SeekBankPCM_of_channels dec h decoder k c hc hch
    refine ⟨s, hs, hcalls, ?_⟩
    intro hk
    rw [hcalls, hfit k hk]

theorem SeekBankPCM_frame_index_witness :
    (1 : Nat) ≤ 1 ∧ corruptBank.rawDataSize ≠ 0 ∧
    (∀ (audioBankOgg : FAudioBankOGG) (decoder : Nat) (k : Nat),
      audioBankOgg.info.numChannels = ((1 : Nat) : Int) →
      ∃ r, SeekBankPCM failingSeekDecoder audioBankOgg decoder k = some r ∧
        r.ovPcmSeekCalls = [toSigned OGG_INT64_BITS ((k / 1 : Nat) : Int)] ∧
        r.decoder
          = (failingSeekDecoder.ov_pcm_seek decoder
              (toSigned OGG_INT64_BITS ((k / 1 : Nat) : Int))).2 ∧
        (k / 1 < 2 ^ 63 →
          r.ovPcmSeekCalls = [((k / 1 : Nat) : Int)] ∧
          r.decoder = (failingSeekDecoder.ov_pcm_seek decoder ((k / 1 : Nat) : Int)).2) ∧
        (2 ≤ 1 → k < U64_SIZE → r.ovPcmSeekCalls = [((k / 1 : Nat) : Int)])) ∧
    ∃ r h, OpenBank true 32 anyReader acceptingCodec corruptBank blankInfo {} = Except.ok r ∧
      r.handle = some h ∧
      h.info.numChannels = ((1 : Nat) : Int) ∧
      ∀ (decoder : Nat) (k : Nat),
        ∃ s, SeekBankPCM failingSeekDecoder h decoder k = some s ∧
          s.ovPcmSeekCalls = [toSigned OGG_INT64_BITS ((k / 1 : Nat) : Int)] ∧
          (k / 1 < 2 ^ 63 → s.ovPcmSeekCalls = [((k / 1 : Nat) : Int)]) :=
  ⟨by decide, by decide,
    SeekBankPCM_frame_index true 32 anyReader acceptingCodec corruptBank blankInfo {}
      { pos := 0 } 1 44100 failingSeekDecoder (by decide) (by decide) (fun _ => by decide)
      rfl (by decide) rfl⟩

/-- C26, evaluated on a fresh session of a stereo stream: a call of `ReadBankPCM` in which
the codec decodes 8 bytes, 2 frames of 16-bit stereo output, returns 8 and advances the
sample offset by 8, the number of bytes, not by `8 / 2 = 4`; the codec stands at frame 2,
so the frame position times the 2 channels is 4, and `SeekBankPCM` to the offset 8 just
reached asks the codec for frame `8 / 2 = 4` instead of frame 2. -/
theorem ReadBankPCM_counts_bytes :
    stereoSession.info.numChannels = 2 ∧ stereoSession.sampleOffset = 0 ∧
    (ReadBankPCM (pcmDecoder 2 1000) 8 stereoSession 0 0 8).map
        (fun r => (r.size, r.ovReadResults, r.audioBankOgg.sampleOffset, r.decoder))
      = some (8, [8], 8, 2) ∧
    (SeekBankPCM (pcmDecoder 2 1000) { stereoSession with sampleOffset := 8 } 2 8).map
        (fun r => (r.ovPcmSeekCalls, r.decoder))
      = some ([4], 4) := by
  refine ⟨rfl, rfl, ?_, ?_⟩
  · simp [ReadBankPCM, ReadBankPCM_loop, ReadBankPCM_body, pcmDecoder, stereoSession,
      U64_SIZE, toU64, toSigned, INT_BITS]
  · simp [SeekBankPCM, pcmDecoder, stereoSession, toSigned, OGG_INT64_BITS]

/-! ## SetSourceOGGFile and the reachable records -/

theorem resize_length (rawData : List Nat) (n : Nat) : (resize rawData n).length = n := by
  simp only [resize, List.length_append, List.length_take, List.length_replicate]
  omega

theorem SetSourceOGGFile_of_opened (files : String → Option (List Nat)) (self : FAudioBank)
    (InPath : String) (w : World) (bytes : List Nat) (hfile : files InPath = some bytes) :
    (self.SetSourceOGGFile files InPath w).1 =
      { pathToArchive := InPath, offsetToRawData := 0, rawDataSize := bytes.length,
        rawData := bytes } := by
  have hr : CreateFileReader files InPath
      = some { path := InPath, isLoading := true, bytes := bytes, pos := 0 } := by
    simp [CreateFileReader, hfile]
  by_cases hn : bytes.length > 0
  · have hread := FArchiveStream.Serialize_loading_at
      { path := InPath, isLoading := true, bytes := bytes, pos := 0 }
      (resize self.rawData bytes.length) [] bytes [] rfl (by simp) rfl
    have hdrop : (resize self.rawData bytes.length).drop bytes.length = [] :=
      List.drop_eq_nil_of_le (by rw [resize_length])
    simp only [FAudioBank.SetSourceOGGFile, hr, FArchiveStream.GetSize, hn, if_true, hread,
      hdrop, List.append_nil]
  · have hnil : bytes = [] := List.eq_nil_of_length_eq_zero (by omega)
    subst hnil
    simp [FAudioBank.SetSourceOGGFile, hr, FArchiveStream.GetSize, resize]

/-- C28: when the source file can be opened, `SetSourceOGGFile` sets `offsetToRawData = 0`,
`rawDataSize` to the size of the file, `pathToArchive` to the given path and `rawData` to
the whole contents of the file, whose length is `rawDataSize`, and deletes the reader it
created; an empty file gives `rawDataSize = 0` and an empty buffer, with a warning only;
when the file cannot be opened the record is left as it was. -/
theorem SetSourceOGGFile_ingests (files : String → Option (List Nat)) (self : FAudioBank)
    (InPath : String) (w : World) :
    (∀ bytes, files InPath = some bytes →
      (self.SetSourceOGGFile files InPath w).1 =
          { pathToArchive := InPath, offsetToRawData := 0, rawDataSize := bytes.length,
            rawData := bytes } ∧
        (self.SetSourceOGGFile files InPath w).1.rawData.length
          = (self.SetSourceOGGFile files InPath w).1.rawDataSize ∧
        (self.SetSourceOGGFile files InPath w).2.readersCreated = w.readersCreated + 1 ∧
        (self.SetSourceOGGFile files InPath w).2.readersReleased = w.readersReleased + 1) ∧
    (files InPath = some [] →
      (self.SetSourceOGGFile files InPath w).1 =
          { pathToArchive := InPath, offsetToRawData := 0, rawDataSize := 0, rawData := [] } ∧
        (self.SetSourceOGGFile files InPath w).2.warnings
          = w.warnings ++ ["Archive \x27" ++ InPath ++ "\x27 is empty"]) ∧
    (files InPath = none →
      (self.SetSourceOGGFile files InPath w).1 = self ∧
        (self.SetSourceOGGFile files InPath w).2.warnings
          = w.warnings ++ ["Failed open archive \x27" ++ InPath ++ "\x27"]) := by
  refine ⟨?_, ?_, ?_⟩
  · intro bytes hfile
    have h := SetSourceOGGFile_of_opened files self InPath w bytes hfile
    refine ⟨h, by rw [h], ?_, ?_⟩
    · simp only [FAudioBank.SetSourceOGGFile, CreateFileReader, hfile, Option.map_some']
      split <;> rfl
    · simp only [FAudioBank.SetSourceOGGFile, CreateFileReader, hfile, Option.map_some']
      split <;> rfl
  · intro hfile
    refine ⟨SetSourceOGGFile_of_opened files self InPath w [] hfile, ?_⟩
    simp [FAudioBank.SetSourceOGGFile, CreateFileReader, hfile, FArchiveStream.GetSize]
  · intro hfile
    simp [FAudioBank.SetSourceOGGFile, CreateFileReader, hfile]

theorem fromLE_toLE64_mod (n : Nat) : fromLE (toLE64 n) = n % U64_SIZE := by
  unfold U64_SIZE
  simp only [toLE64, fromLE, List.range, List.range.loop, List.map, List.foldr]
  omega

theorem FArchiveStream.Serialize_pos_le (a : FArchiveStream) (buffer : List Nat) (n : Nat) :
    (a.Serialize buffer n).2.pos ≤ a.pos + n := by
  unfold FArchiveStream.Serialize
  split
  · simp only [List.length_take]
    omega
  · simp only [List.length_take]
    omega

theorem serializeRawDataSize_pos_le (assetHeader : List Nat) (self : FAudioBank)
    (InArchive : FArchiveStream) :
    (serializeRawDataSize assetHeader self InArchive).2.pos
      ≤ InArchive.pos + assetHeader.length + 8 := by
  unfold serializeRawDataSize FArchiveStream.shiftU64 FAsset_Serialize
  have h1 := FArchiveStream.Serialize_pos_le InArchive assetHeader assetHeader.length
  have h2 := FArchiveStream.Serialize_pos_le (InArchive.Serialize assetHeader assetHeader.length).2
    (toLE64 self.rawDataSize) 8
  omega

theorem serializeRawDataSize_of_saving (assetHeader : List Nat) (self : FAudioBank)
    (InArchive : FArchiveStream) (hsave : InArchive.isLoading = false) :
    (serializeRawDataSize assetHeader self InArchive).1 = toLE64 self.rawDataSize := by
  have h1 : (InArchive.Serialize assetHeader assetHeader.length).2.isLoading = false := by
    rw [(FArchiveStream.Serialize_isLoading InArchive assetHeader assetHeader.length).1, hsave]
  simp [serializeRawDataSize, FArchiveStream.shiftU64, FAsset_Serialize,
    FArchiveStream.Serialize, hsave]

theorem Serialize_keeps_offset_resolved (WITH_EDITOR : Bool) (assetHeader : List Nat)
    (self self1 : FAudioBank) (InArchive a1 : FArchiveStream)
    (hinv : 0 < self.rawDataSize → self.offsetToRawData ≠ OFFSET_UNSET)
    (hcur : InArchive.isLoading = true →
      InArchive.pos + assetHeader.length + 8 < OFFSET_UNSET)
    (h : self.Serialize WITH_EDITOR assetHeader InArchive = some (self1, a1)) :
    0 < self1.rawDataSize → self1.offsetToRawData ≠ OFFSET_UNSET := by
  by_cases hload : InArchive.isLoading = true
  · by_cases hpos : 0 < fromLE (serializeRawDataSize assetHeader self InArchive).1
    · rw [Serialize_of_loading_pos WITH_EDITOR assetHeader self InArchive hload hpos] at h
      simp only [Option.some.injEq, Prod.mk.injEq] at h
      obtain ⟨h1, -⟩ := h
      subst h1
      intro _
      show (serializeRawDataSize assetHeader self InArchive).2.pos ≠ OFFSET_UNSET
      have hle := serializeRawDataSize_pos_le assetHeader self InArchive
      have hlt := hcur hload
      omega
    · rw [Serialize_of_zero WITH_EDITOR assetHeader self InArchive (by omega)] at h
      simp only [Option.some.injEq, Prod.mk.injEq] at h
      obtain ⟨h1, -⟩ := h
      subst h1
      intro hp
      exact absurd hp hpos
  · have hsave : InArchive.isLoading = false := by simpa using hload
    have hbuf := serializeRawDataSize_of_saving assetHeader self InArchive hsave
    have hl := (serializeRawDataSize_isLoading assetHeader self InArchive).1
    rw [hsave] at hl
    have hsize : self1.rawDataSize = self.rawDataSize % U64_SIZE ∧
        self1.offsetToRawData = self.offsetToRawData := by
      simp only [FAudioBank.Serialize, hl, hbuf, fromLE_toLE64_mod, Bool.false_and,
        Bool.false_eq_true, if_false] at h
      split at h
      · split at h
        · simp only [Option.some.injEq, Prod.mk.injEq] at h
          obtain ⟨h1, -⟩ := h
          subst h1
          exact ⟨rfl, rfl⟩
        · exact absurd h (by simp)
      · simp only [Option.some.injEq, Prod.mk.injEq] at h
        obtain ⟨h1, -⟩ := h
        subst h1
        exact ⟨rfl, rfl⟩
    intro hp
    rw [hsize.2]
    apply hinv
    rw [hsize.1] at hp
    exact Nat.pos_of_ne_zero (fun h0 => by rw [h0] at hp; simp at hp)

theorem SetSourceOGGFile_keeps_offset_resolved (files : String → Option (List Nat))
    (self : FAudioBank) (InPath : String) (w : World)
    (hinv : 0 < self.rawDataSize → self.offsetToRawData ≠ OFFSET_UNSET) :
    0 < (self.SetSourceOGGFile files InPath w).1.rawDataSize →
      (self.SetSourceOGGFile files InPath w).1.offsetToRawData ≠ OFFSET_UNSET := by
  cases hfile : files InPath with
  | none =>
    have h : (self.SetSourceOGGFile files InPath w).1 = self := by
      simp [FAudioBank.SetSourceOGGFile, CreateFileReader, hfile]
    rw [h]
    exact hinv
  | some bytes =>
    rw [SetSourceOGGFile_of_opened files self InPath w bytes hfile]
    intro _
    show (0 : Nat) ≠ OFFSET_UNSET
    unfold OFFSET_UNSET
    omega

theorem Reachable_offset_resolved (WITH_EDITOR : Bool) (self : FAudioBank)
    (h : Reachable WITH_EDITOR self) :
    0 < self.rawDataSize → self.offsetToRawData ≠ OFFSET_UNSET := by
  induction h with
  | new =>
    intro hp
    exact absurd hp (by decide)
  | serialize self self1 assetHeader InArchive a1 _ hcur hser ih =>
    exact Serialize_keeps_offset_resolved WITH_EDITOR assetHeader self self1 InArchive a1 ih
      hcur hser
  | setSource self files InPath w _ ih =>
    exact SetSourceOGGFile_keeps_offset_resolved files self InPath w ih

/-- C27: every bank record reached from the constructor by calls of `Serialize` (loading or
saving, the loading archives having their cursor after the length field below
`2 ^ 64 - 1`) and of `SetSourceOGGFile` has `offsetToRawData` different from the unset
value -1 whenever `rawDataSize > 0`; so `OpenBank` on such a record never fails the
assertion `offsetToRawData != -1`. -/
theorem Reachable_OpenBank_check (WITH_EDITOR DO_CHECK : Bool) (LONG_BITS : Nat)
    (GFileSystem : String → Option FArchive) (codec : OggVorbisCodec) (self : FAudioBank)
    (OutBankInfo : FAudioBankInfo) (w : World) (h : Reachable WITH_EDITOR self) :
    (0 < self.rawDataSize → self.offsetToRawData ≠ OFFSET_UNSET) ∧
      OpenBank DO_CHECK LONG_BITS GFileSystem codec self OutBankInfo w
        ≠ Except.error "offsetToRawData != -1" := by
  have hinv := Reachable_offset_resolved WITH_EDITOR self h
  refine ⟨hinv, ?_⟩
  by_cases h0 : self.rawDataSize = 0
  · rw [OpenBank_of_empty DO_CHECK LONG_BITS GFileSystem codec self OutBankInfo w h0]
    simp
  · rw [OpenBank_of_not_empty DO_CHECK LONG_BITS GFileSystem codec self OutBankInfo w h0
      (fun _ => hinv (by omega))]
    split
    · simp
    · split
      · simp
      · split
        · simp
        · simp

theorem Serialize_new_loadingArchive (WITH_EDITOR : Bool) :
    FAudioBank.new.Serialize WITH_EDITOR [7, 7] loadingArchive
      = some (loadedBank,
          { path := "sounds.pak", isLoading := true,
            bytes := [7, 7, 3, 0, 0, 0, 0, 0, 0, 0, 10, 20, 30, 99], pos := 13,
            calls := [ArchiveCall.Serialize 2, ArchiveCall.Serialize 8, ArchiveCall.Tell,
              ArchiveCall.Seek 13] }) := by
  cases WITH_EDITOR <;> decide

theorem loadedBank_reachable (WITH_EDITOR : Bool) : Reachable WITH_EDITOR loadedBank :=
  Reachable.serialize FAudioBank.new loadedBank [7, 7] loadingArchive _ Reachable.new
    (fun _ => by
      show 0 + 2 + 8 < OFFSET_UNSET
      unfold OFFSET_UNSET
      omega)
    (Serialize_new_loadingArchive WITH_EDITOR)

theorem Reachable_OpenBank_check_witness :
    Reachable true loadedBank ∧
      ((0 < loadedBank.rawDataSize → loadedBank.offsetToRawData ≠ OFFSET_UNSET) ∧
        OpenBank true 64 anyReader acceptingCodec loadedBank blankInfo {}
          ≠ Except.error "offsetToRawData != -1") :=
  ⟨loadedBank_reachable true,
    Reachable_OpenBank_check true true 64 anyReader acceptingCodec loadedBank blankInfo {}
      (loadedBank_reachable true)⟩

/-- C29 fails on a record populated by loading: in an editor build, loading
`loadingArchive` into a new record sets `rawDataSize = 3` and leaves `rawData` empty, so
the reachable record holds fewer than `rawDataSize` bytes, and `Serialize` in save mode on
it reads 3 bytes from the empty buffer (the model answers `none`). -/
theorem Serialize_save_after_load_overruns :
    (FAudioBank.new.Serialize true [7, 7] loadingArchive).map Prod.fst = some loadedBank ∧
      Reachable true loadedBank ∧
      loadedBank.rawDataSize = 3 ∧ loadedBank.rawData.length = 0 ∧
      savingArchive.isLoading = false ∧
      loadedBank.Serialize true [7, 7] savingArchive = none := by
  refine ⟨?_, loadedBank_reachable true, rfl, rfl, rfl, ?_⟩
  · rw [Serialize_new_loadingArchive true]
    rfl
  · decide

/-! ## Termination of the decode loop -/

theorem ReadBankPCM_loop_terminates {σ : Type} (dec : OvDecoder σ) (InMaxSize : Nat)
    (hmax : InMaxSize < U64_SIZE)
    (hy : ∀ (s : σ) (L : Int), (dec.ov_read s L).1 ≤ max L 0 ∨
      (InMaxSize : Int) + (dec.ov_read s L).1 ≤ 2 ^ 64) :
    ∀ (fuel : Nat) (st : ReadBankPCMState σ), InMaxSize - st.size ≤ fuel →
      ∃ r, ReadBankPCM_loop dec InMaxSize fuel st = some r ∧
        r.ovReadResults.length ≤ st.ovReadResults.length + (InMaxSize - st.size) ∧
        (¬ st.size < InMaxSize → r = st) := by
  intro fuel
  induction fuel with
  | zero =>
    intro st hfuel
    have hlt : ¬ st.size < InMaxSize := by omega
    exact ⟨st, ReadBankPCM_loop_of_done dec InMaxSize 0 st hlt, by omega, fun _ => rfl⟩
  | succ fuel ih =>
    intro st hfuel
    by_cases hlt : st.size < InMaxSize
    · by_cases hpos : 0 < (dec.ov_read st.decoder (toSigned INT_BITS ((InMaxSize - st.size : Nat) : Int))).1
      · rw [ReadBankPCM_loop_succ_of_pos dec InMaxSize fuel st hlt hmax hpos]
        have hsize : (toU64 ((st.size : Int)
            + (dec.ov_read st.decoder (toSigned INT_BITS ((InMaxSize - st.size : Nat) : Int))).1) : Int)
            = (st.size : Int) + (dec.ov_read st.decoder (toSigned INT_BITS ((InMaxSize - st.size : Nat) : Int))).1 := by
          apply toU64_of_nonneg_of_lt
          · omega
          · have hL := toSigned_int_le ((InMaxSize - st.size : Nat) : Int) (by omega)
            rcases hy st.decoder (toSigned INT_BITS ((InMaxSize - st.size : Nat) : Int))
              with h1 | h1
            · unfold U64_SIZE at hmax
              rcases le_max_iff.mp h1 with h2 | h2
              · omega
              · omega
            · omega
        obtain ⟨r, hr, hlen, -⟩ := ih
          { size := toU64 ((st.size : Int) + (dec.ov_read st.decoder (toSigned INT_BITS ((InMaxSize - st.size : Nat) : Int))).1),
            InSamples := st.InSamples + (dec.ov_read st.decoder (toSigned INT_BITS ((InMaxSize - st.size : Nat) : Int))).1,
            audioBankOgg :=
              { st.audioBankOgg with
                sampleOffset := toU64 ((st.audioBankOgg.sampleOffset : Int)
                  + (dec.ov_read st.decoder (toSigned INT_BITS ((InMaxSize - st.size : Nat) : Int))).1) },
            decoder := (dec.ov_read st.decoder (toSigned INT_BITS ((InMaxSize - st.size : Nat) : Int))).2,
            ovReadResults :=
              st.ovReadResults ++ [(dec.ov_read st.decoder (toSigned INT_BITS ((InMaxSize - st.size : Nat) : Int))).1],
            appErrorfCalls := st.appErrorfCalls }
          (by
            show InMaxSize - toU64 ((st.size : Int)
              + (dec.ov_read st.decoder (toSigned INT_BITS ((InMaxSize - st.size : Nat) : Int))).1) ≤ fuel
            omega)
        refine ⟨r, hr, ?_, fun h => absurd hlt h⟩
        simp only [List.length_append, List.length_singleton] at hlen
        omega
      · rw [ReadBankPCM_loop_succ_of_not_pos dec InMaxSize fuel st hlt hmax hpos]
        refine ⟨_, rfl, ?_, fun h => absurd hlt h⟩
        simp only [List.length_append, List.length_singleton]
        omega
    · exact ⟨st, ReadBankPCM_loop_of_done dec InMaxSize (fuel + 1) st hlt, by omega,
        fun _ => rfl⟩

theorem ReadBankPCM_loop_twoByteDecoder :
    ∀ (fuel : Nat) (st : ReadBankPCMState Unit), st.size % 2 = 0 → st.size < U64_SIZE →
      ReadBankPCM_loop twoByteDecoder 18446744073709551615 fuel st = none := by
  intro fuel
  induction fuel with
  | zero =>
    intro st heven hlt
    have h : st.size < 18446744073709551615 := by
      unfold U64_SIZE at hlt
      omega
    simp [ReadBankPCM_loop, h]
  | succ fuel ih =>
    intro st heven hlt
    have h : st.size < 18446744073709551615 := by
      unfold U64_SIZE at hlt
      omega
    have hmax : 18446744073709551615 < U64_SIZE := by
      unfold U64_SIZE
      omega
    have hpos : 0 < (twoByteDecoder.ov_read st.decoder
        (toSigned INT_BITS ((18446744073709551615 - st.size : Nat) : Int))).1 := by
      show (0 : Int) < 2
      omega
    rw [ReadBankPCM_loop_succ_of_pos twoByteDecoder 18446744073709551615 fuel st h hmax hpos]
    apply ih
    · show toU64 ((st.size : Int) + 2) % 2 = 0
      unfold toU64
      omega
    · show toU64 ((st.size : Int) + 2) < U64_SIZE
      exact toU64_lt _

/-- C30 fails for a codec that yields 2 bytes to every call: `ReadBankPCM` with
`InMaxSize = 2 ^ 64 - 1` keeps `size` even, `size` wraps from `2 ^ 64 - 2` to 0 and never
reaches `InMaxSize`, so no number of passes ends the loop. -/
theorem ReadBankPCM_never_returns :
    18446744073709551615 < U64_SIZE ∧
      ¬ ∃ fuel, (ReadBankPCM twoByteDecoder fuel stereoSession () 0
        18446744073709551615).isSome = true := by
  constructor
  · unfold U64_SIZE
    omega
  · rintro ⟨fuel, h⟩
    have hnone : ReadBankPCM twoByteDecoder fuel stereoSession () 0 18446744073709551615
        = none :=
      ReadBankPCM_loop_twoByteDecoder fuel _ rfl (by
        show 0 < U64_SIZE
        unfold U64_SIZE
        omega)
    rw [hnone] at h
    exact absurd h (by simp)

/-- C30 as amended: when every result of the codec is at most the requested byte count
(nothing positive for a `length` of 0 or less) or at most `2 ^ 64 - InMaxSize` (whatever
sequence of positive, zero or negative results it yields within that bound),
`ReadBankPCM` returns after at most `InMaxSize` passes, so after at most `max InMaxSize 1`
calls of `ov_read`, and with `InMaxSize = 0` it makes no call of `ov_read` and leaves the
sample offset and the decoder as they were. -/
theorem ReadBankPCM_terminates {σ : Type} (dec : OvDecoder σ) (audioBankOgg : FAudioBankOGG)
    (decoder : σ) (InSamples : Int) (InMaxSize : Nat) (hmax : InMaxSize < U64_SIZE)
    (hy : ∀ (s : σ) (L : Int), (dec.ov_read s L).1 ≤ max L 0 ∨
      (InMaxSize : Int) + (dec.ov_read s L).1 ≤ 2 ^ 64) :
    ∃ r, (∀ fuel, InMaxSize ≤ fuel →
          ReadBankPCM dec fuel audioBankOgg decoder InSamples InMaxSize = some r) ∧
      r.ovReadResults.length ≤ InMaxSize ∧
      r.ovReadResults.length ≤ max InMaxSize 1 ∧
      (InMaxSize = 0 → r.ovReadResults = [] ∧
        r.audioBankOgg.sampleOffset = audioBankOgg.sampleOffset ∧ r.decoder = decoder) := by
  obtain ⟨r, hr, hlen, hdone⟩ := ReadBankPCM_loop_terminates dec InMaxSize hmax hy InMaxSize
    { size := 0, InSamples := InSamples, audioBankOgg := audioBankOgg, decoder := decoder,
      ovReadResults := [], appErrorfCalls := 0 }
    (by
      show InMaxSize - 0 ≤ InMaxSize
      omega)
  have hlen2 : r.ovReadResults.length ≤ InMaxSize := by
    have h := hlen
    simp only [List.length_nil] at h
    omega
  refine ⟨r, ?_, hlen2, le_trans hlen2 (le_max_left _ _), ?_⟩
  · intro fuel hfuel
    exact ReadBankPCM_loop_fuel_le dec InMaxSize InMaxSize fuel hfuel _ r hr
  · intro h0
    have hst := hdone (by
      show ¬ (0 < InMaxSize)
      omega)
    rw [hst]
    exact ⟨rfl, rfl, rfl⟩

theorem ReadBankPCM_terminates_witness :
    (8 < U64_SIZE ∧
      ∀ (s : Nat) (L : Int), ((chunkDecoder 3).ov_read s L).1 ≤ max L 0 ∨
        ((8 : Nat) : Int) + ((chunkDecoder 3).ov_read s L).1 ≤ 2 ^ 64) ∧
      ∃ r, (∀ fuel, 8 ≤ fuel →
          ReadBankPCM (chunkDecoder 3) fuel stereoSession 10 0 8 = some r) ∧
        r.ovReadResults.length ≤ 8 ∧
        r.ovReadResults.length ≤ max 8 1 ∧
        (8 = 0 → r.ovReadResults = [] ∧
          r.audioBankOgg.sampleOffset = stereoSession.sampleOffset ∧ r.decoder = 10) :=
  have hmax : 8 < U64_SIZE := by
    unfold U64_SIZE
    omega
  have hy : ∀ (s : Nat) (L : Int), ((chunkDecoder 3).ov_read s L).1 ≤ max L 0 ∨
      ((8 : Nat) : Int) + ((chunkDecoder 3).ov_read s L).1 ≤ 2 ^ 64 := by
    intro s L
    left
    show ((min (min L.toNat s) 3 : Nat) : Int) ≤ max L 0
    omega
  ⟨⟨hmax, hy⟩, ReadBankPCM_terminates (chunkDecoder 3) stereoSession 10 0 8 hmax hy⟩

end AudioBank
